import Mathlib

/-!
The block walker of a BGZF file, `bgzf_read.c`.

A shallow embedding of `src/bgzf/bgzf_read.c`.

* A `uint8_t` is a `Fin 256`; a `uint8_t *` buffer is a function from the index to the byte.
* A `FILE *` is the content of the file together with the position of the stream.
* The value of a C `int` expression is kept as its 32-bit two's-complement pattern
  (a `Nat` below `2^32`) while bit operations are applied to it, and as an `Int` once it is
  stored in an `int` variable.  The addition to the `int` total wraps at 32 bits.
* The loop of `parse_bgzf` is followed for a given number of turns.  Its test `i > -1` holds
  as long as `i`, which starts at 1 and is only incremented, has not overflowed; what `i++`
  does at `INT_MAX` is undefined in C and is not given a meaning here.
* The automatic arrays of `read_bgzf_block` are not initialised by the code.  `fread` only
  overwrites as many bytes as the file still has, so what the arrays hold before the call
  is an input of the model (`Stack`).
* `printf` output is collected in a `Report`; `exit(1)` is an outcome of its own.
-/

namespace Bgzf

/-- One `uint8_t`. -/
abbrev Byte := Fin 256

/-- The stream behind a `FILE *`: the bytes of the file and the position indicator. -/
structure FILE where
  data : List Byte
  pos : Nat
deriving DecidableEq, Repr

/-- The `k`-th byte of the file counted from the position of the stream, when the file has it. -/
def FILE.peek (fp : FILE) (k : Nat) : Option Byte :=
  fp.data[fp.pos + k]?

/-- Number of bytes between the position of the stream and the end of the file. -/
def FILE.avail (fp : FILE) : Nat :=
  fp.data.length - fp.pos

/-- The call `fread(buffer, sizeof(uint8_t), num_bytes, fp)`: the bytes the file still has,
at most `num_bytes` of them, are stored at the front of `buffer`, the rest of `buffer` keeps
what it held, and the position moves on by the number of bytes stored. -/
def read_bytes (buffer : Nat → Byte) (num_bytes : Nat) (fp : FILE) : (Nat → Byte) × FILE :=
  let n := min num_bytes (fp.data.length - fp.pos)
  (fun i => if i < n then fp.data.getD (fp.pos + i) 0 else buffer i,
   { fp with pos := fp.pos + n })

/-- The call `fseek(fp, offset, SEEK_CUR)` with an offset that is not negative: the position
moves on by `offset`, also past the end of the file. -/
def fseek_cur (fp : FILE) (offset : Nat) : FILE :=
  { fp with pos := fp.pos + offset }

/-- The function `get_file_size`: the length of the file; the stream is rewound to the start. -/
def get_file_size (fp : FILE) : Int × FILE :=
  (((fp.data.length : Int) + 2147483648) % 4294967296 - 2147483648, { fp with pos := 0 })

/-! ### C integer conversions -/

/-- The cast `(short) x`, promoted back to `int`: the low 16 bits of the pattern `x`, sign
extended to 32 bits. -/
def to_short (x : Nat) : Nat :=
  if x % 65536 < 32768 then x % 65536 else x % 65536 + 4294901760

/-- The shift `x << k` on `int`, as a 32-bit pattern. -/
def shl (x k : Nat) : Nat :=
  (x <<< k) % 4294967296

/-- Conversion of the pattern `x` to `uint16_t`. -/
def to_uint16 (x : Nat) : Nat :=
  x % 65536

/-- Conversion of the pattern `x` to `uint32_t`. -/
def to_uint32 (x : Nat) : Nat :=
  x % 4294967296

/-- Conversion of a `uint32_t` to `int`: the pattern read as two's complement. -/
def to_int (x : Nat) : Int :=
  if x % 4294967296 < 2147483648 then ((x % 4294967296 : Nat) : Int)
  else ((x % 4294967296 : Nat) : Int) - 4294967296

/-- The result of an `int` addition or increment: the mathematical value wrapped to 32 bits. -/
def wrap_int (x : Int) : Int :=
  (x + 2147483648) % 4294967296 - 2147483648

/-- The constant `INT_MAX` of a 32-bit `int`. -/
def INT_MAX : Nat := 2147483647

/-- The function `bytes_to_short`:
`return (short)(((short) arr[offset+1]) << 8) | arr[offset];` with return type `uint16_t`. -/
def bytes_to_short (arr : Nat → Byte) (offset : Nat) : Nat :=
  to_uint16 (to_short (shl (to_short (arr (offset + 1)).val) 8) ||| (arr offset).val)

/-- The function `bytes_to_int`:
`return (short)((((short) arr[offset+3]) << 24) | (((short) arr[offset+2]) << 16) |
(((short) arr[offset+1]) << 8) | arr[offset]);` with return type `uint32_t`. -/
def bytes_to_int (arr : Nat → Byte) (offset : Nat) : Nat :=
  to_uint32 (to_short
    (((shl (to_short (arr (offset + 3)).val) 24 |||
       shl (to_short (arr (offset + 2)).val) 16) |||
       shl (to_short (arr (offset + 1)).val) 8) |||
       (arr offset).val))

/-- The call `print_bytes(bytes, num_bytes)`: the bytes that are printed, in order. -/
def print_bytes (bytes : Nat → Byte) (num_bytes : Nat) : List Byte :=
  (List.range num_bytes).map bytes

/-! ### `read_bgzf_block` -/

/-- What the automatic arrays `header`, `block`, `crc32_buf` and `input_size_buf` of
`read_bgzf_block` hold when the function is entered. -/
structure Stack where
  header : Nat → Byte
  block : Nat → Byte
  crc32_buf : Nat → Byte
  input_size_buf : Nat → Byte

/-- The two messages `read_bgzf_block` writes to `stderr` before `exit(1)`. -/
inductive Failure where
  /-- The message "Invalid BGZF header magic!" -/
  | invalid_magic
  /-- The message of the check of the method byte and the flag byte, "This is a BGZF file,
  but ... not BGZF!" -/
  | not_bgzf
deriving DecidableEq, Repr

/-- The values `read_bgzf_block` prints for one block. -/
structure Report where
  /-- the twelve header bytes -/
  header : List Byte
  /-- the variable `extra_length` (XLEN) -/
  extra_length : Nat
  /-- the byte `block[0]` -/
  si1 : Byte
  /-- the byte `block[1]` -/
  si2 : Byte
  /-- the variable `subfield_length` (SLEN) -/
  subfield_length : Nat
  /-- the variable `block_size` (BSIZE) -/
  block_size : Nat
  /-- the variable `total_compressed_bytes` -/
  total_compressed_bytes : Nat
  /-- the `int crc32` -/
  crc32 : Int
  /-- the `int input_size` -/
  input_size : Int
  /-- the total printed by the end block check, when that branch is taken -/
  counted : Option Int
deriving DecidableEq, Repr

/-- How a call of `read_bgzf_block` ends.  Both cases carry the value of the static
`total_bytes_read` and the stream as the call leaves them. -/
inductive Outcome where
  /-- the call `exit(1)` after the message -/
  | exit (why : Failure) (total_bytes_read : Int) (fp : FILE)
  /-- the statement `return value;` after the report was printed -/
  | ret (value : Int) (report : Report) (total_bytes_read : Int) (fp : FILE)
deriving DecidableEq, Repr

/-- The function `read_bgzf_block(fp)`.  `total_bytes_read` is the static counter of the
function.  Each `read_bytes` call is named (`rd1` .. `rd4`): its first component is the array
it filled, its second the stream after the call. -/
def read_bgzf_block (stk : Stack) (total_bytes_read : Int) (fp : FILE) : Outcome :=
  let header_size := 12
  let rd1 := read_bytes stk.header header_size fp
  let header := rd1.1
  let extra_length := bytes_to_short header 10
  if header 0 ≠ 0x1f ∨ header 1 ≠ 0x8b then
    .exit .invalid_magic total_bytes_read rd1.2
  else if header 2 ≠ 0x08 ∨ header 3 ≠ 0x04 then
    .exit .not_bgzf total_bytes_read rd1.2
  else
    let rd2 := read_bytes stk.block 6 rd1.2
    let block := rd2.1
    let subfield_length := bytes_to_short block 2
    let block_size := bytes_to_short block 4
    let total_compressed_bytes :=
      (((block_size : Int) - (extra_length : Int) - 19) % 65536).toNat
    let sk := fseek_cur rd2.2 total_compressed_bytes
    let total_bytes_read := wrap_int (total_bytes_read + (total_compressed_bytes : Int))
    let rd3 := read_bytes stk.crc32_buf 4 sk
    let rd4 := read_bytes stk.input_size_buf 4 rd3.2
    let crc32 := to_int (bytes_to_int rd3.1 0)
    let input_size := to_int (bytes_to_int rd4.1 0)
    let report (counted : Option Int) : Report :=
      { header := print_bytes header header_size
        extra_length := extra_length
        si1 := block 0
        si2 := block 1
        subfield_length := subfield_length
        block_size := block_size
        total_compressed_bytes := total_compressed_bytes
        crc32 := crc32
        input_size := input_size
        counted := counted }
    if crc32 = 0 ∧ input_size = 0 then
      .ret 0 (report (some total_bytes_read)) total_bytes_read rd4.2
    else
      .ret 1 (report none) total_bytes_read rd4.2

/-! ### `parse_bgzf` -/

/-- One turn of the loop of `parse_bgzf` that printed a report: the number of the turn (the
block number `i` of the banner), the position of the stream before and after the call, and
the report. -/
structure Visit where
  index : Nat
  start : Nat
  report : Report
  stop : Nat
  /-- the call returned 0 -/
  is_terminal : Bool
deriving DecidableEq, Repr

/-- How a run of the loop of `parse_bgzf` ends. -/
inductive Ending where
  /-- the call of `read_bgzf_block` returned 0 and the loop was left by `break` -/
  | finished
  /-- the call of `read_bgzf_block` ended in `exit(1)` -/
  | exited (why : Failure)
  /-- the turns that are followed are used up and the loop has not been left: the run is a
  part of what the program does, and nothing is said about how the program goes on -/
  | unfinished
deriving DecidableEq, Repr

/-- The run of `parse_bgzf`: the reports in the order they were printed, how the run ended,
and the static counter and the stream at that point. -/
structure Walk where
  visits : List Visit
  ending : Ending
  total_bytes_read : Int
  fp : FILE
deriving DecidableEq, Repr

/-- The loop `while (i > -1) { if (!read_bgzf_block(fp)) break; i++; }`.  The first argument
is the number of turns that are followed, the second the number `i` of the next turn; the test
`i > -1` holds in every turn, since `i` starts at 1 and is only incremented.  `frames i` is
what the arrays of call number `i` hold on entry. -/
def parse_loop (frames : Nat → Stack) : Nat → Nat → Int → FILE → Walk
  | 0, _, total_bytes_read, fp => ⟨[], .unfinished, total_bytes_read, fp⟩
  | left + 1, i, total_bytes_read, fp =>
    match read_bgzf_block (frames i) total_bytes_read fp with
    | .exit why t f => ⟨[], .exited why, t, f⟩
    | .ret value report t f =>
      if value = 0 then
        ⟨[⟨i, fp.pos, report, f.pos, true⟩], .finished, t, f⟩
      else
        let rest := parse_loop frames left (i + 1) t f
        { rest with visits := ⟨i, fp.pos, report, f.pos, false⟩ :: rest.visits }

/-- The function `parse_bgzf(fp)`: `int i=1;` and the loop, followed for the `INT_MAX` turns in
which `i++` is defined. -/
def parse_bgzf (frames : Nat → Stack) (total_bytes_read : Int) (fp : FILE) : Walk :=
  parse_loop frames INT_MAX 1 total_bytes_read fp

/-- The function `main` on a file that could be opened: the size is taken (and printed), the
stream is back at the start, the static counter is 0, and the file is parsed. -/
def main (frames : Nat → Stack) (file : List Byte) : Walk :=
  parse_bgzf frames 0 (get_file_size ⟨file, 0⟩).2

/-! ### Test data -/

/-- A stack whose arrays hold zero bytes. -/
def zero_stack : Stack := ⟨fun _ => 0, fun _ => 0, fun _ => 0, fun _ => 0⟩

/-- The 28 bytes of the BGZF end-of-file marker. -/
def eof_marker : List Byte :=
  [0x1f, 0x8b, 0x08, 0x04, 0, 0, 0, 0, 0, 0xff, 0x06, 0,
   0x42, 0x43, 0x02, 0, 0x1b, 0, 0x03, 0, 0, 0, 0, 0, 0, 0, 0, 0]

/-- A member with XLEN = 6 and BSIZE = 23, so that BSIZE + 1 < XLEN + 19, followed by
eight trailer bytes. -/
def undersized_member : List Byte :=
  [0x1f, 0x8b, 0x08, 0x04, 0, 0, 0, 0, 0, 0xff, 0x06, 0,
   0x42, 0x43, 0x02, 0, 0x17, 0, 1, 0, 0, 0, 1, 0, 0, 0]

/-- A member with XLEN = 65535 and BSIZE = 20, so that BSIZE + 1 < XLEN + 19, followed by two
more bytes and eight trailer bytes. -/
def wrapped_member : List Byte :=
  [0x1f, 0x8b, 0x08, 0x04, 0, 0, 0, 0, 0, 0xff, 0xff, 0xff,
   0x42, 0x43, 0x02, 0, 0x14, 0, 0xaa, 0xbb, 1, 0, 0, 0, 1, 0, 0, 0]

/-- A data block of 29 bytes (XLEN = 6, BSIZE = 28, three payload bytes) whose trailer holds
CRC32 = 0xabcd0000 and ISIZE = 65536. -/
def block_64k : List Byte :=
  [0x1f, 0x8b, 0x08, 0x04, 0, 0, 0, 0, 0, 0xff, 0x06, 0,
   0x42, 0x43, 0x02, 0, 0x1c, 0, 0x01, 0x02, 0x03, 0, 0, 0xcd, 0xab, 0, 0, 0x01, 0]

/-- The unsigned 32-bit little-endian value of four bytes. -/
def le32 (b0 b1 b2 b3 : Byte) : Nat :=
  b0.val + 256 * b1.val + 65536 * b2.val + 16777216 * b3.val

/-- CRC32 of a member: the little-endian value of the first four of its last eight bytes. -/
def member_crc32 (m : List Byte) : Nat :=
  le32 (m.getD (m.length - 8) 0) (m.getD (m.length - 7) 0)
    (m.getD (m.length - 6) 0) (m.getD (m.length - 5) 0)

/-- ISIZE of a member: the little-endian value of its last four bytes. -/
def member_isize (m : List Byte) : Nat :=
  le32 (m.getD (m.length - 4) 0) (m.getD (m.length - 3) 0)
    (m.getD (m.length - 2) 0) (m.getD (m.length - 1) 0)

/-- A complete member with XLEN = 6: at least the 12 header bytes, the 6 subfield bytes and
the 8 trailer bytes, header bytes `1f 8b 08 04`, XLEN bytes `06 00`, and as many bytes as
BSIZE + 1, BSIZE being the little-endian value of bytes 16 and 17. -/
def is_member (m : List Byte) : Prop :=
  26 ≤ m.length ∧ m.getD 0 0 = 0x1f ∧ m.getD 1 0 = 0x8b ∧ m.getD 2 0 = 0x08 ∧ m.getD 3 0 = 0x04
    ∧ m.getD 10 0 = 6 ∧ m.getD 11 0 = 0
    ∧ (m.getD 16 0).val + 256 * (m.getD 17 0).val + 1 = m.length

instance : DecidablePred is_member := fun m => by unfold is_member; infer_instance

/-- The two low bytes of the CRC32 and the two low bytes of the ISIZE of a member are zero. -/
def low_trailer_zero (m : List Byte) : Prop :=
  m.getD (m.length - 8) 0 = 0 ∧ m.getD (m.length - 7) 0 = 0
    ∧ m.getD (m.length - 4) 0 = 0 ∧ m.getD (m.length - 3) 0 = 0

instance : DecidablePred low_trailer_zero := fun m => by unfold low_trailer_zero; infer_instance

/-- A data block of 29 bytes (XLEN = 6, BSIZE = 28, three payload bytes) whose trailer holds
CRC32 = 0x12345678 and ISIZE = 3. -/
def plain_block : List Byte :=
  [0x1f, 0x8b, 0x08, 0x04, 0, 0, 0, 0, 0, 0xff, 0x06, 0,
   0x42, 0x43, 0x02, 0, 0x1c, 0, 0x01, 0x02, 0x03, 0x78, 0x56, 0x34, 0x12, 3, 0, 0, 0]

/-- A header with XLEN = 65535 and a subfield with BSIZE = 0, followed by eight more bytes. -/
def oversized_xlen : List Byte :=
  [0x1f, 0x8b, 0x08, 0x04, 0, 0, 0, 0, 0, 0xff, 0xff, 0xff,
   0x42, 0x43, 0x02, 0, 0x00, 0x00, 1, 0, 0, 0, 1, 0, 0, 0]

/-- A data block of 65536 bytes (XLEN = 6, BSIZE = 65535, 65510 payload bytes) whose trailer
holds CRC32 = 0x12345678 and ISIZE = 65510. -/
def big_block : List Byte :=
  [0x1f, 0x8b, 0x08, 0x04, 0, 0, 0, 0, 0, 0xff, 0x06, 0, 0x42, 0x43, 0x02, 0, 0xff, 0xff]
    ++ (List.replicate 65510 0 ++ [0x78, 0x56, 0x34, 0x12, 0xe6, 0xff, 0, 0])

/-- A stack whose arrays hold bytes of value one. -/
def ones_stack : Stack := ⟨fun _ => 1, fun _ => 1, fun _ => 1, fun _ => 1⟩

/-- The first 21 bytes of a member: the header (XLEN = 6), the subfield (BSIZE = 35, so that
the payload is 10 bytes long) and 3 payload bytes. -/
def truncated_member : List Byte :=
  [0x1f, 0x8b, 0x08, 0x04, 0, 0, 0, 0, 0, 0xff, 0x06, 0,
   0x42, 0x43, 0x02, 0, 0x23, 0, 0x01, 0x02, 0x03]

/-- The end-of-file marker with other values in header bytes 4 to 9 (MTIME, XFL, OS) and in
subfield bytes 0 to 3 (SI1, SI2, SLEN). -/
def relabelled_marker : List Byte :=
  [0x1f, 0x8b, 0x08, 0x04, 1, 2, 3, 4, 5, 6, 0x06, 0,
   0x58, 0x59, 0x07, 0x07, 0x1b, 0, 0x03, 0, 0, 0, 0, 0, 0, 0, 0, 0]

/-- The report without the total that is printed with it. -/
def Report.forget_total (r : Report) : Report :=
  { r with counted := none }

/-- The outcome of a call without the running total: the total carried by the outcome is set
to 0 and the total printed in the report is left out. -/
def Outcome.forget_total : Outcome → Outcome
  | .exit why _ f => .exit why 0 f
  | .ret v r _ f => .ret v r.forget_total 0 f

/-- The run of `parse_bgzf` without the running total. -/
def Walk.forget_total (w : Walk) : Walk :=
  ⟨w.visits.map (fun v => { v with report := v.report.forget_total }), w.ending, 0, w.fp⟩

/-- What is left of the outcome of a call when the header bytes that are printed, the two
subfield identifiers and SLEN are left out of the report, and of the stream only the position
is kept: the error or the value returned, XLEN, BSIZE, the payload length, CRC32, ISIZE, the
total printed, the running total and the position. -/
def Outcome.essence : Outcome → Option Failure × Option (Int × Report) × Int × Nat
  | .exit why t f => (some why, none, t, f.pos)
  | .ret v r t f =>
    (none, some (v, { r with header := [], si1 := 0, si2 := 0, subfield_length := 0 }), t, f.pos)

/-- The bytes of the file from the position of the stream on, as an array (zero where the
file has no byte). -/
def FILE.view (fp : FILE) : Nat → Byte :=
  fun k => fp.data.getD (fp.pos + k) 0

/-- The payload length announced by the bytes of the file at the position: BSIZE from bytes
4 and 5 of the subfield, which starts 12 bytes after the position, XLEN from bytes 10 and 11
of the header, combined as `read_bgzf_block` combines them. -/
def FILE.announced (fp : FILE) : Nat :=
  (((bytes_to_short (FILE.view ⟨fp.data, fp.pos + 12⟩) 4 : Int)
    - (bytes_to_short fp.view 10 : Int) - 19) % 65536).toNat

/-- The file holds all the bytes of the member at the position: the 26 bytes of header,
subfield and trailer and the announced payload. -/
def FILE.holds_member (fp : FILE) : Prop :=
  fp.pos + 26 + fp.announced ≤ fp.data.length

/-! ## Lemmas on the integer helpers -/

theorem or_low_byte (a b : Nat) (hb : b < 256) : (256 * a) ||| b = 256 * a + b :=
  (Nat.mul_add_lt_is_or (i := 8) hb a).symm

theorem or_low_word (a b : Nat) (hb : b < 65536) : (65536 * a) ||| b = 65536 * a + b :=
  (Nat.mul_add_lt_is_or (i := 16) hb a).symm

theorem or_low_three (a b : Nat) (hb : b < 16777216) : (16777216 * a) ||| b = 16777216 * a + b :=
  (Nat.mul_add_lt_is_or (i := 24) hb a).symm

theorem to_short_byte (b : Nat) (hb : b < 256) : to_short b = b := by
  unfold to_short
  have h : b % 65536 = b := Nat.mod_eq_of_lt (by omega)
  rw [h, if_pos (by omega)]

theorem shl_byte (b k : Nat) (hb : b < 256) (hk : k ≤ 24) : shl b k = 2 ^ k * b := by
  unfold shl
  rw [Nat.shiftLeft_eq, Nat.mul_comm]
  apply Nat.mod_eq_of_lt
  calc 2 ^ k * b < 2 ^ k * 256 := Nat.mul_lt_mul_of_pos_left hb (Nat.two_pow_pos k)
    _ ≤ 2 ^ 24 * 256 := Nat.mul_le_mul_right _ (Nat.pow_le_pow_right (by decide) hk)
    _ = 4294967296 := by norm_num

/-- The two bytes are combined little endian: `bytes_to_short` is the unsigned 16-bit value. -/
theorem bytes_to_short_eq (arr : Nat → Byte) (offset : Nat) :
    bytes_to_short arr offset = (arr offset).val + 256 * (arr (offset + 1)).val := by
  have h0 := (arr offset).isLt
  have h1 := (arr (offset + 1)).isLt
  unfold bytes_to_short
  rw [to_short_byte _ h1, shl_byte _ 8 h1 (by decide)]
  unfold to_short to_uint16
  have e : (2 ^ 8 * (arr (offset + 1)).val) % 65536 = 256 * (arr (offset + 1)).val := by omega
  rw [e]
  split
  · rw [or_low_byte _ _ h0]; omega
  · have e2 : 256 * (arr (offset + 1)).val + 4294901760
        = 256 * ((arr (offset + 1)).val + 16776960) := by omega
    rw [e2, or_low_byte _ _ h0]; omega

theorem bytes_to_short_lt (arr : Nat → Byte) (offset : Nat) : bytes_to_short arr offset < 65536 := by
  have h0 := (arr offset).isLt
  have h1 := (arr (offset + 1)).isLt
  rw [bytes_to_short_eq]; omega

/-- Only the two low bytes reach the result of `bytes_to_int`: it is their 16-bit value,
sign extended to 32 bits. -/
theorem bytes_to_int_eq (arr : Nat → Byte) (offset : Nat) :
    bytes_to_int arr offset =
      if (arr offset).val + 256 * (arr (offset + 1)).val < 32768
      then (arr offset).val + 256 * (arr (offset + 1)).val
      else (arr offset).val + 256 * (arr (offset + 1)).val + 4294901760 := by
  have h0 := (arr offset).isLt
  have h1 := (arr (offset + 1)).isLt
  have h2 := (arr (offset + 2)).isLt
  have h3 := (arr (offset + 3)).isLt
  unfold bytes_to_int
  rw [to_short_byte _ h1, to_short_byte _ h2, to_short_byte _ h3,
    shl_byte _ 8 h1 (by decide), shl_byte _ 16 h2 (by decide), shl_byte _ 24 h3 (by decide)]
  have e3 : (2 : Nat) ^ 24 * (arr (offset + 3)).val = 16777216 * (arr (offset + 3)).val := by
    norm_num
  have e2 : (2 : Nat) ^ 16 * (arr (offset + 2)).val = 65536 * (arr (offset + 2)).val := by
    norm_num
  have e1 : (2 : Nat) ^ 8 * (arr (offset + 1)).val = 256 * (arr (offset + 1)).val := by
    norm_num
  rw [e3, e2, e1, or_low_three _ _ (by omega)]
  have f2 : 16777216 * (arr (offset + 3)).val + 65536 * (arr (offset + 2)).val
      = 65536 * (256 * (arr (offset + 3)).val + (arr (offset + 2)).val) := by omega
  rw [f2, or_low_word _ _ (by omega)]
  have f1 : 65536 * (256 * (arr (offset + 3)).val + (arr (offset + 2)).val)
        + 256 * (arr (offset + 1)).val
      = 256 * (256 * (256 * (arr (offset + 3)).val + (arr (offset + 2)).val)
        + (arr (offset + 1)).val) := by omega
  rw [f1, or_low_byte _ _ h0]
  unfold to_short to_uint32
  split <;> split <;> omega

/-- The `int` that receives `bytes_to_int` is zero exactly when the two low bytes are zero. -/
theorem to_int_bytes_to_int_eq_zero (arr : Nat → Byte) (offset : Nat) :
    to_int (bytes_to_int arr offset) = 0 ↔ arr offset = 0 ∧ arr (offset + 1) = 0 := by
  have h0 := (arr offset).isLt
  have h1 := (arr (offset + 1)).isLt
  rw [bytes_to_int_eq]
  unfold to_int
  constructor
  · intro h
    have : (arr offset).val = 0 ∧ (arr (offset + 1)).val = 0 := by
      split at h <;> split at h <;> omega
    exact ⟨Fin.ext this.1, Fin.ext this.2⟩
  · rintro ⟨e0, e1⟩
    rw [e0, e1]
    decide

/-! ## Lemmas on `read_bytes` and `read_bgzf_block` -/

theorem read_bytes_snd (buffer : Nat → Byte) (n : Nat) (fp : FILE) :
    (read_bytes buffer n fp).2 = ⟨fp.data, fp.pos + min n fp.avail⟩ := rfl

theorem read_bytes_snd_of_le (buffer : Nat → Byte) (n : Nat) (fp : FILE)
    (h : fp.pos + n ≤ fp.data.length) : (read_bytes buffer n fp).2 = ⟨fp.data, fp.pos + n⟩ := by
  rw [read_bytes_snd]
  have : min n fp.avail = n := by unfold FILE.avail; omega
  rw [this]

theorem peek_lt {fp : FILE} {k : Nat} {b : Byte} (h : fp.peek k = some b) :
    fp.pos + k < fp.data.length := by
  unfold FILE.peek at h
  obtain ⟨hlt, _⟩ := List.getElem?_eq_some.mp h
  exact hlt

/-- A byte the file has within the first `n` from the position is the byte `fread` stores. -/
theorem read_bytes_fst_of_peek (buffer : Nat → Byte) {n : Nat} {fp : FILE} {k : Nat} {b : Byte}
    (h : fp.peek k = some b) (hk : k < n) : (read_bytes buffer n fp).1 k = b := by
  have hlt := peek_lt h
  unfold FILE.peek at h
  have hk2 : k < min n (fp.data.length - fp.pos) := by omega
  simp only [read_bytes, if_pos hk2, List.getD_eq_getElem?_getD, h, Option.getD_some]

/-- The first check of `read_bgzf_block`. -/
theorem read_bgzf_block_invalid_magic (stk : Stack) (total : Int) (fp : FILE)
    (h : (read_bytes stk.header 12 fp).1 0 ≠ 0x1f ∨ (read_bytes stk.header 12 fp).1 1 ≠ 0x8b) :
    read_bgzf_block stk total fp = .exit .invalid_magic total (read_bytes stk.header 12 fp).2 := by
  unfold read_bgzf_block
  simp only []
  rw [if_pos h]

/-- The second check of `read_bgzf_block`. -/
theorem read_bgzf_block_not_bgzf (stk : Stack) (total : Int) (fp : FILE)
    (h0 : (read_bytes stk.header 12 fp).1 0 = 0x1f) (h1 : (read_bytes stk.header 12 fp).1 1 = 0x8b)
    (h : (read_bytes stk.header 12 fp).1 2 ≠ 0x08 ∨ (read_bytes stk.header 12 fp).1 3 ≠ 0x04) :
    read_bgzf_block stk total fp = .exit .not_bgzf total (read_bytes stk.header 12 fp).2 := by
  unfold read_bgzf_block
  simp only []
  rw [if_neg (by simp [h0, h1]), if_pos h]

/-- When the four checked header bytes are as required the call returns. -/
theorem read_bgzf_block_ret_of_valid (stk : Stack) (total : Int) (fp : FILE)
    (h0 : (read_bytes stk.header 12 fp).1 0 = 0x1f) (h1 : (read_bytes stk.header 12 fp).1 1 = 0x8b)
    (h2 : (read_bytes stk.header 12 fp).1 2 = 0x08) (h3 : (read_bytes stk.header 12 fp).1 3 = 0x04) :
    ∃ v r t f, read_bgzf_block stk total fp = .ret v r t f := by
  unfold read_bgzf_block
  simp only []
  rw [if_neg (by simp [h0, h1]), if_neg (by simp [h2, h3])]
  split
  · exact ⟨_, _, _, _, rfl⟩
  · exact ⟨_, _, _, _, rfl⟩

/-- What a call that returned has done, in terms of its four reads. -/
theorem read_bgzf_block_ret_inv {stk : Stack} {total : Int} {fp : FILE} {v : Int} {r : Report}
    {t : Int} {f : FILE} (h : read_bgzf_block stk total fp = .ret v r t f) :
    ((read_bytes stk.header 12 fp).1 0 = 0x1f ∧ (read_bytes stk.header 12 fp).1 1 = 0x8b
      ∧ (read_bytes stk.header 12 fp).1 2 = 0x08 ∧ (read_bytes stk.header 12 fp).1 3 = 0x04)
    ∧ r.extra_length = bytes_to_short (read_bytes stk.header 12 fp).1 10
    ∧ r.block_size = bytes_to_short (read_bytes stk.block 6 (read_bytes stk.header 12 fp).2).1 4
    ∧ r.total_compressed_bytes
        = (((r.block_size : Int) - (r.extra_length : Int) - 19) % 65536).toNat
    ∧ t = wrap_int (total + (r.total_compressed_bytes : Int))
    ∧ f = (read_bytes stk.input_size_buf 4 (read_bytes stk.crc32_buf 4
            (fseek_cur (read_bytes stk.block 6 (read_bytes stk.header 12 fp).2).2
              r.total_compressed_bytes)).2).2
    ∧ r.crc32 = to_int (bytes_to_int (read_bytes stk.crc32_buf 4
            (fseek_cur (read_bytes stk.block 6 (read_bytes stk.header 12 fp).2).2
              r.total_compressed_bytes)).1 0)
    ∧ r.input_size = to_int (bytes_to_int (read_bytes stk.input_size_buf 4
          (read_bytes stk.crc32_buf 4
            (fseek_cur (read_bytes stk.block 6 (read_bytes stk.header 12 fp).2).2
              r.total_compressed_bytes)).2).1 0)
    ∧ (v = 0 ∨ v = 1)
    ∧ (v = 0 ↔ r.crc32 = 0 ∧ r.input_size = 0)
    ∧ (v = 0 ↔ r.counted = some t) ∧ (v = 1 ↔ r.counted = none) := by
  unfold read_bgzf_block at h
  simp only [] at h
  split at h
  · exact Outcome.noConfusion h
  · rename_i hm
    split at h
    · exact Outcome.noConfusion h
    · rename_i hb
      have hm2 := not_or.mp hm
      have hb2 := not_or.mp hb
      have hv : (read_bytes stk.header 12 fp).1 0 = 0x1f ∧ (read_bytes stk.header 12 fp).1 1 = 0x8b
          ∧ (read_bytes stk.header 12 fp).1 2 = 0x08 ∧ (read_bytes stk.header 12 fp).1 3 = 0x04 :=
        ⟨not_not.mp hm2.1, not_not.mp hm2.2, not_not.mp hb2.1, not_not.mp hb2.2⟩
      split at h
      · rename_i hz
        injection h with e1 e2 e3 e4
        subst e1 e2 e3 e4
        refine ⟨hv, rfl, rfl, rfl, rfl, rfl, rfl, rfl, Or.inl rfl, ?_, ?_, ?_⟩
        · exact ⟨fun _ => hz, fun _ => rfl⟩
        · exact ⟨fun _ => rfl, fun _ => rfl⟩
        · exact ⟨fun h => absurd h (by decide), fun h => Option.noConfusion h⟩
      · rename_i hz
        injection h with e1 e2 e3 e4
        subst e1 e2 e3 e4
        refine ⟨hv, rfl, rfl, rfl, rfl, rfl, rfl, rfl, Or.inr rfl, ?_, ?_, ?_⟩
        · exact ⟨fun h => absurd h (by decide), fun h => absurd h hz⟩
        · exact ⟨fun h => absurd h (by decide), fun h => Option.noConfusion h⟩
        · exact ⟨fun _ => rfl, fun _ => rfl⟩

theorem peek_after_read {fp : FILE} {n k : Nat} {b : Byte} (buffer : Nat → Byte)
    (h : fp.peek (n + k) = some b) : (read_bytes buffer n fp).2.peek k = some b := by
  have hlt := peek_lt h
  rw [read_bytes_snd_of_le buffer n fp (by omega)]
  unfold FILE.peek at h ⊢
  simp only []
  rw [Nat.add_assoc]
  exact h

/-- Where a call that returned leaves the stream when the file has all the bytes the call
asked for. -/
theorem ret_pos_of_present {stk : Stack} {total : Int} {fp : FILE} {v : Int} {r : Report}
    {t : Int} {f : FILE} (h : read_bgzf_block stk total fp = .ret v r t f)
    (hfull : fp.pos + 26 + r.total_compressed_bytes ≤ fp.data.length) :
    f = ⟨fp.data, fp.pos + 26 + r.total_compressed_bytes⟩ := by
  obtain ⟨_, _, _, _, _, hf, _⟩ := read_bgzf_block_ret_inv h
  rw [hf, read_bytes_snd_of_le stk.header 12 fp (by omega),
    read_bytes_snd_of_le stk.block 6 _ (by simp only []; omega)]
  unfold fseek_cur
  simp only []
  rw [read_bytes_snd_of_le stk.crc32_buf 4 _ (by simp only []; omega)]
  rw [read_bytes_snd_of_le stk.input_size_buf 4 _ (by simp only []; omega)]
  simp only [FILE.mk.injEq, true_and]
  omega

/-- The sizes a call that returned reports, when the file has the header and the subfield:
XLEN is the little-endian value of header bytes 10 and 11, BSIZE that of subfield bytes
4 and 5. -/
theorem ret_sizes_of_peek {stk : Stack} {total : Int} {fp : FILE} {v : Int} {r : Report}
    {t : Int} {f : FILE} {x0 x1 s0 s1 : Byte}
    (h : read_bgzf_block stk total fp = .ret v r t f)
    (hx0 : fp.peek 10 = some x0) (hx1 : fp.peek 11 = some x1)
    (hs0 : fp.peek 16 = some s0) (hs1 : fp.peek 17 = some s1) :
    r.extra_length = x0.val + 256 * x1.val ∧ r.block_size = s0.val + 256 * s1.val := by
  obtain ⟨_, hx, hb, _⟩ := read_bgzf_block_ret_inv h
  rw [hx, hb, bytes_to_short_eq, bytes_to_short_eq,
    read_bytes_fst_of_peek stk.header hx0 (by decide),
    read_bytes_fst_of_peek stk.header hx1 (by decide),
    read_bytes_fst_of_peek stk.block (peek_after_read stk.header hs0) (by decide),
    read_bytes_fst_of_peek stk.block (peek_after_read stk.header hs1) (by decide)]
  exact ⟨rfl, rfl⟩

/-- The call returns when the file has the bytes `1f 8b 08 04` at the position. -/
theorem ret_of_peek_valid (stk : Stack) (total : Int) {fp : FILE}
    (h0 : fp.peek 0 = some 0x1f) (h1 : fp.peek 1 = some 0x8b)
    (h2 : fp.peek 2 = some 0x08) (h3 : fp.peek 3 = some 0x04) :
    ∃ v r t f, read_bgzf_block stk total fp = .ret v r t f :=
  read_bgzf_block_ret_of_valid stk total fp
    (read_bytes_fst_of_peek stk.header h0 (by decide))
    (read_bytes_fst_of_peek stk.header h1 (by decide))
    (read_bytes_fst_of_peek stk.header h2 (by decide))
    (read_bytes_fst_of_peek stk.header h3 (by decide))

theorem peek_fseek_cur {fp : FILE} {n k : Nat} {b : Byte} (h : fp.peek (n + k) = some b) :
    (fseek_cur fp n).peek k = some b := by
  unfold FILE.peek fseek_cur at *
  simp only []
  rw [Nat.add_assoc]
  exact h

theorem peek_congr {fp : FILE} {k j : Nat} {b : Byte} (h : fp.peek k = some b) (e : k = j) :
    fp.peek j = some b := e ▸ h

/-- A call that returned leaves the file as it was and the position not before where it
was. -/
theorem ret_pos_ge {stk : Stack} {total : Int} {fp : FILE} {v : Int} {r : Report}
    {t : Int} {f : FILE} (h : read_bgzf_block stk total fp = .ret v r t f) :
    f.data = fp.data ∧ fp.pos ≤ f.pos := by
  obtain ⟨_, _, _, _, _, hf, _⟩ := read_bgzf_block_ret_inv h
  rw [hf]
  simp only [read_bytes_snd, fseek_cur, true_and]
  omega

/-- A call that ended in `exit(1)` leaves the file as it was and the position not before
where it was. -/
theorem exit_pos_ge {stk : Stack} {total : Int} {fp : FILE} {why : Failure}
    {t : Int} {f : FILE} (h : read_bgzf_block stk total fp = .exit why t f) :
    f.data = fp.data ∧ fp.pos ≤ f.pos ∧ t = total := by
  unfold read_bgzf_block at h
  simp only [] at h
  split at h
  · injection h with _ e2 e3
    rw [← e3, ← e2]
    simp only [read_bytes_snd, true_and, and_true]
    omega
  · split at h
    · injection h with _ e2 e3
      rw [← e3, ← e2]
      simp only [read_bytes_snd, true_and, and_true]
      omega
    · split at h <;> exact Outcome.noConfusion h

/-- The stream after the header read, the subfield read and the skip of `n` bytes shows the
bytes of the file from offset `18 + n` on. -/
theorem peek_trailer (stk : Stack) {fp : FILE} {n j k : Nat} {b : Byte}
    (h : fp.peek (j + n) = some b) (hj : j = 18 + k) :
    (fseek_cur (read_bytes stk.block 6 (read_bytes stk.header 12 fp).2).2 n).peek k = some b := by
  subst hj
  have hlt := peek_lt h
  rw [read_bytes_snd_of_le stk.header 12 fp (by omega),
    read_bytes_snd_of_le stk.block 6 _ (by simp only []; omega)]
  unfold FILE.peek fseek_cur at *
  simp only []
  rw [← h]
  congr 1
  omega

/-- The stream after the read of `crc32_buf` shows the bytes of the file from offset
`22 + n` on. -/
theorem peek_isize (stk : Stack) {fp : FILE} {n j k : Nat} {b : Byte}
    (h : fp.peek (j + n) = some b) (hj : j = 22 + k) :
    (read_bytes stk.crc32_buf 4
      (fseek_cur (read_bytes stk.block 6 (read_bytes stk.header 12 fp).2).2 n)).2.peek k
      = some b := by
  subst hj
  have hlt := peek_lt h
  rw [read_bytes_snd_of_le stk.header 12 fp (by omega),
    read_bytes_snd_of_le stk.block 6 _ (by simp only []; omega)]
  unfold fseek_cur
  simp only []
  rw [read_bytes_snd_of_le stk.crc32_buf 4 _ (by simp only []; omega)]
  unfold FILE.peek at *
  simp only []
  rw [← h]
  congr 1
  omega

/-- The value returned, in terms of the bytes of the file: it is 0 exactly when the two low
bytes of the CRC32 and the two low bytes of the ISIZE are zero. -/
theorem ret_zero_iff_of_peek {stk : Stack} {total : Int} {fp : FILE} {v : Int} {r : Report}
    {t : Int} {f : FILE} {c0 c1 i0 i1 : Byte}
    (h : read_bgzf_block stk total fp = .ret v r t f)
    (hc0 : fp.peek (18 + r.total_compressed_bytes) = some c0)
    (hc1 : fp.peek (19 + r.total_compressed_bytes) = some c1)
    (hi0 : fp.peek (22 + r.total_compressed_bytes) = some i0)
    (hi1 : fp.peek (23 + r.total_compressed_bytes) = some i1) :
    v = 0 ↔ (c0 = 0 ∧ c1 = 0 ∧ i0 = 0 ∧ i1 = 0) := by
  obtain ⟨_, _, _, _, _, _, hc, hi, _, hv, _⟩ := read_bgzf_block_ret_inv h
  have g0 : (read_bytes stk.crc32_buf 4 (fseek_cur (read_bytes stk.block 6
      (read_bytes stk.header 12 fp).2).2 r.total_compressed_bytes)).1 0 = c0 := by
    apply read_bytes_fst_of_peek
    · exact peek_trailer stk hc0 rfl
    · decide
  have g1 : (read_bytes stk.crc32_buf 4 (fseek_cur (read_bytes stk.block 6
      (read_bytes stk.header 12 fp).2).2 r.total_compressed_bytes)).1 (0 + 1) = c1 := by
    apply read_bytes_fst_of_peek
    · exact peek_trailer stk hc1 rfl
    · decide
  have g2 : (read_bytes stk.input_size_buf 4 (read_bytes stk.crc32_buf 4
      (fseek_cur (read_bytes stk.block 6 (read_bytes stk.header 12 fp).2).2
        r.total_compressed_bytes)).2).1 0 = i0 := by
    apply read_bytes_fst_of_peek
    · exact peek_isize stk hi0 rfl
    · decide
  have g3 : (read_bytes stk.input_size_buf 4 (read_bytes stk.crc32_buf 4
      (fseek_cur (read_bytes stk.block 6 (read_bytes stk.header 12 fp).2).2
        r.total_compressed_bytes)).2).1 (0 + 1) = i1 := by
    apply read_bytes_fst_of_peek
    · exact peek_isize stk hi1 rfl
    · decide
  rw [hv, hc, hi, to_int_bytes_to_int_eq_zero, to_int_bytes_to_int_eq_zero, g0, g1, g2, g3]
  exact and_assoc

/-! ## Members laid out in a file -/

theorem peek_member (pre m rest : List Byte) {k : Nat} (hk : k < m.length) :
    (⟨pre ++ m ++ rest, pre.length⟩ : FILE).peek k = some (m.getD k 0) := by
  unfold FILE.peek
  simp only []
  rw [List.append_assoc, List.getElem?_append_right (Nat.le_add_right _ _),
    Nat.add_sub_cancel_left, List.getElem?_append_left hk, List.getD_eq_getElem?_getD,
    List.getElem?_eq_getElem hk]
  rfl

/-- The call on a complete member that lies in the file at the position of the stream:
it returns, the stream is on the first byte after the member, the payload length is the
length of the member less 26, and the value returned is 0 exactly when the low bytes of the
trailer fields are zero. -/
theorem read_member (stk : Stack) (total : Int) (pre m rest : List Byte) (hm : is_member m) :
    ∃ v r t, read_bgzf_block stk total ⟨pre ++ m ++ rest, pre.length⟩
        = .ret v r t ⟨pre ++ m ++ rest, pre.length + m.length⟩
      ∧ (v = 0 ↔ low_trailer_zero m)
      ∧ r.total_compressed_bytes + 26 = m.length
      ∧ t = wrap_int (total + (r.total_compressed_bytes : Int)) := by
  obtain ⟨hlen, m0, m1, m2, m3, m10, m11, msz⟩ := hm
  have pk : ∀ k, k < m.length →
      (⟨pre ++ m ++ rest, pre.length⟩ : FILE).peek k = some (m.getD k 0) :=
    fun k hk => peek_member pre m rest hk
  have p0 := pk 0 (by omega)
  have p1 := pk 1 (by omega)
  have p2 := pk 2 (by omega)
  have p3 := pk 3 (by omega)
  have p10 := pk 10 (by omega)
  have p11 := pk 11 (by omega)
  rw [m0] at p0
  rw [m1] at p1
  rw [m2] at p2
  rw [m3] at p3
  rw [m10] at p10
  rw [m11] at p11
  obtain ⟨v, r, t, f, h⟩ := ret_of_peek_valid stk total p0 p1 p2 p3
  obtain ⟨hx, hb⟩ := ret_sizes_of_peek h p10 p11 (pk 16 (by omega)) (pk 17 (by omega))
  obtain ⟨_, _, _, hn, ht, _⟩ := read_bgzf_block_ret_inv h
  have hx6 : r.extra_length = 6 := by rw [hx]; rfl
  have hn2 : r.total_compressed_bytes + 26 = m.length := by
    rw [hn, hx6, hb]; omega
  have hf := ret_pos_of_present h (by
    simp only [List.length_append]
    omega)
  have hz := ret_zero_iff_of_peek h
    (pk (18 + r.total_compressed_bytes) (by omega))
    (pk (19 + r.total_compressed_bytes) (by omega))
    (pk (22 + r.total_compressed_bytes) (by omega))
    (pk (23 + r.total_compressed_bytes) (by omega))
  have e8 : 18 + r.total_compressed_bytes = m.length - 8 := by omega
  have e7 : 19 + r.total_compressed_bytes = m.length - 7 := by omega
  have e4 : 22 + r.total_compressed_bytes = m.length - 4 := by omega
  have e3 : 23 + r.total_compressed_bytes = m.length - 3 := by omega
  rw [e8, e7, e4, e3] at hz
  refine ⟨v, r, t, ?_, hz, hn2, ht⟩
  rw [h, hf]
  simp only [Outcome.ret.injEq, FILE.mk.injEq, true_and]
  omega

/-! ## Lemmas on `parse_loop` -/

theorem parse_loop_zero (frames : Nat → Stack) (i : Nat) (total : Int) (fp : FILE) :
    parse_loop frames 0 i total fp = ⟨[], .unfinished, total, fp⟩ := rfl

theorem parse_loop_exit (frames : Nat → Stack) (left i : Nat) {total : Int} {fp : FILE}
    {why : Failure} {t : Int} {f : FILE}
    (h : read_bgzf_block (frames i) total fp = .exit why t f) :
    parse_loop frames (left + 1) i total fp = ⟨[], .exited why, t, f⟩ := by
  simp only [parse_loop, h]

theorem parse_loop_break (frames : Nat → Stack) (left i : Nat) {total : Int} {fp : FILE}
    {r : Report} {t : Int} {f : FILE}
    (h : read_bgzf_block (frames i) total fp = .ret 0 r t f) :
    parse_loop frames (left + 1) i total fp
      = ⟨[⟨i, fp.pos, r, f.pos, true⟩], .finished, t, f⟩ := by
  simp only [parse_loop, h, if_true]

theorem parse_loop_next (frames : Nat → Stack) (left i : Nat) {total : Int} {fp : FILE}
    {v : Int} {r : Report} {t : Int} {f : FILE}
    (h : read_bgzf_block (frames i) total fp = .ret v r t f) (hv : v ≠ 0) :
    parse_loop frames (left + 1) i total fp
      = ⟨⟨i, fp.pos, r, f.pos, false⟩ :: (parse_loop frames left (i + 1) t f).visits,
          (parse_loop frames left (i + 1) t f).ending,
          (parse_loop frames left (i + 1) t f).total_bytes_read,
          (parse_loop frames left (i + 1) t f).fp⟩ := by
  simp only [parse_loop, h, if_neg hv]

theorem layout_cons (pre m rest : List Byte) (ms : List (List Byte)) :
    pre ++ (m :: ms).flatten ++ rest = pre ++ m ++ (ms.flatten ++ rest) := by
  simp only [List.flatten_cons, List.append_assoc]

theorem layout_shift (pre m rest : List Byte) (ms : List (List Byte)) :
    (⟨pre ++ m ++ (ms.flatten ++ rest), pre.length + m.length⟩ : FILE)
      = ⟨(pre ++ m) ++ ms.flatten ++ rest, (pre ++ m).length⟩ := by
  simp only [List.length_append, List.append_assoc]

/-- Induction along the turns of the loop of `parse_bgzf`. -/
theorem parse_loop_induct (frames : Nat → Stack)
    (P : Nat → Int → FILE → Walk → Prop)
    (hzero : ∀ i total fp, P i total fp ⟨[], .unfinished, total, fp⟩)
    (hexit : ∀ i total fp why t f, read_bgzf_block (frames i) total fp = .exit why t f →
      P i total fp ⟨[], .exited why, t, f⟩)
    (hbreak : ∀ i total fp r t f, read_bgzf_block (frames i) total fp = .ret 0 r t f →
      P i total fp ⟨[⟨i, fp.pos, r, f.pos, true⟩], .finished, t, f⟩)
    (hnext : ∀ i total fp r t f (w : Walk),
      read_bgzf_block (frames i) total fp = .ret 1 r t f → P (i + 1) t f w →
      P i total fp ⟨⟨i, fp.pos, r, f.pos, false⟩ :: w.visits, w.ending, w.total_bytes_read,
        w.fp⟩) :
    ∀ left i total fp, P i total fp (parse_loop frames left i total fp) := by
  intro left
  induction left with
  | zero =>
    intro i total fp
    rw [parse_loop_zero]
    exact hzero i total fp
  | succ k ih =>
    intro i total fp
    cases h : read_bgzf_block (frames i) total fp with
    | exit why t f =>
      rw [parse_loop_exit frames k i h]
      exact hexit i total fp why t f h
    | ret v r t f =>
      obtain ⟨_, _, _, _, _, _, _, _, hv, _⟩ := read_bgzf_block_ret_inv h
      rcases hv with rfl | rfl
      · rw [parse_loop_break frames k i h]
        exact hbreak i total fp r t f h
      · rw [parse_loop_next frames k i h (by decide)]
        exact hnext i total fp r t f _ h (ih (i + 1) t f)

/-- The walk leaves the file as it was and the stream not before where it was. -/
theorem parse_loop_pos (frames : Nat → Stack) (left i : Nat) (total : Int) (fp : FILE) :
    (parse_loop frames left i total fp).fp.data = fp.data
    ∧ fp.pos ≤ (parse_loop frames left i total fp).fp.pos := by
  refine parse_loop_induct frames (fun _ _ fp w => w.fp.data = fp.data ∧ fp.pos ≤ w.fp.pos)
    ?_ ?_ ?_ ?_ left i total fp
  · intro i total fp
    exact ⟨rfl, Nat.le_refl _⟩
  · intro i total fp why t f h
    exact ⟨(exit_pos_ge h).1, (exit_pos_ge h).2.1⟩
  · intro i total fp r t f h
    exact ret_pos_ge h
  · intro i total fp r t f w h ih
    have hp := ret_pos_ge h
    exact ⟨ih.1.trans hp.1, Nat.le_trans hp.2 ih.2⟩

/-- The first report of a walk carries the number the counter started from and the position the
stream started from. -/
theorem parse_loop_head (frames : Nat → Stack) (left i : Nat) (total : Int) (fp : FILE) :
    ∀ v, (parse_loop frames left i total fp).visits.head? = some v →
      v.index = i ∧ v.start = fp.pos := by
  refine parse_loop_induct frames
    (fun i _ fp w => ∀ v, w.visits.head? = some v → v.index = i ∧ v.start = fp.pos)
    ?_ ?_ ?_ ?_ left i total fp
  · intro i total fp v hv
    exact Option.noConfusion hv
  · intro i total fp why t f _ v hv
    exact Option.noConfusion hv
  · intro i total fp r t f _ v hv
    simp only [List.head?_cons, Option.some.injEq] at hv
    subst hv
    exact ⟨rfl, rfl⟩
  · intro i total fp r t f w _ _ v hv
    simp only [List.head?_cons, Option.some.injEq] at hv
    subst hv
    exact ⟨rfl, rfl⟩

/-- The reports of a walk are numbered consecutively and each starts where the one before
stopped. -/
theorem parse_loop_chain (frames : Nat → Stack) (left i : Nat) (total : Int) (fp : FILE) :
    List.Chain' (fun a b : Visit => b.index = a.index + 1 ∧ b.start = a.stop)
      (parse_loop frames left i total fp).visits := by
  induction left generalizing i total fp with
  | zero =>
    rw [parse_loop_zero]
    exact List.chain'_nil
  | succ k ih =>
    cases h : read_bgzf_block (frames i) total fp with
    | exit why t f =>
      rw [parse_loop_exit frames k i h]
      exact List.chain'_nil
    | ret v r t f =>
      obtain ⟨_, _, _, _, _, _, _, _, hv, _⟩ := read_bgzf_block_ret_inv h
      rcases hv with rfl | rfl
      · rw [parse_loop_break frames k i h]
        exact List.chain'_singleton _
      · rw [parse_loop_next frames k i h (by decide)]
        simp only []
        rw [List.chain'_cons']
        refine ⟨?_, ih (i + 1) t f⟩
        intro y hy
        exact parse_loop_head frames k (i + 1) t f y hy

/-- Each report of a walk is the report of a `read_bgzf_block` call made at the position
where the report starts, which left the stream where the report stops; the stream never
moves back. -/
theorem parse_loop_visits (frames : Nat → Stack) (left i : Nat) (total : Int) (fp : FILE) :
    fp.pos ≤ (parse_loop frames left i total fp).fp.pos
    ∧ ∀ v ∈ (parse_loop frames left i total fp).visits,
      v.start ≤ v.stop ∧ v.stop ≤ (parse_loop frames left i total fp).fp.pos
      ∧ ∃ tot t, read_bgzf_block (frames v.index) tot ⟨fp.data, v.start⟩
          = .ret (if v.is_terminal then 0 else 1) v.report t ⟨fp.data, v.stop⟩ := by
  refine parse_loop_induct frames
    (fun _ _ fp w => fp.pos ≤ w.fp.pos ∧ ∀ v ∈ w.visits,
      v.start ≤ v.stop ∧ v.stop ≤ w.fp.pos
      ∧ ∃ tot t, read_bgzf_block (frames v.index) tot ⟨fp.data, v.start⟩
          = .ret (if v.is_terminal then 0 else 1) v.report t ⟨fp.data, v.stop⟩)
    ?_ ?_ ?_ ?_ left i total fp
  · intro i total fp
    exact ⟨Nat.le_refl _, fun v hv => absurd hv (List.not_mem_nil v)⟩
  · intro i total fp why t f h
    exact ⟨(exit_pos_ge h).2.1, fun v hv => absurd hv (List.not_mem_nil v)⟩
  · intro i total fp r t f h
    have hp := ret_pos_ge h
    refine ⟨hp.2, ?_⟩
    intro v hv
    rw [List.mem_singleton] at hv
    subst hv
    refine ⟨hp.2, Nat.le_refl _, total, t, ?_⟩
    simp only [if_true]
    rw [h, ← hp.1]
  · intro i total fp r t f w h ih
    have hp := ret_pos_ge h
    refine ⟨Nat.le_trans hp.2 ih.1, ?_⟩
    intro v hv
    rcases List.mem_cons.mp hv with rfl | hv2
    · refine ⟨hp.2, ih.1, total, t, ?_⟩
      simp only [Bool.false_eq_true, if_false]
      rw [h, ← hp.1]
    · have hx := ih.2 v hv2
      rw [hp.1] at hx
      exact hx

/-- Every report of a walk but the last is the report of a call that returned 1. -/
theorem parse_loop_dropLast (frames : Nat → Stack) (left i : Nat) (total : Int) (fp : FILE) :
    ∀ v ∈ (parse_loop frames left i total fp).visits.dropLast, v.is_terminal = false := by
  refine parse_loop_induct frames (fun _ _ _ w => ∀ v ∈ w.visits.dropLast, v.is_terminal = false)
    ?_ ?_ ?_ ?_ left i total fp
  · intro i total fp v hv
    exact absurd hv (List.not_mem_nil v)
  · intro i total fp why t f _ v hv
    exact absurd hv (List.not_mem_nil v)
  · intro i total fp r t f _ v hv
    exact absurd hv (List.not_mem_nil v)
  · intro i total fp r t f w _ ih v hv
    cases hvis : w.visits with
    | nil =>
      simp only [hvis, List.dropLast_single] at hv
      exact absurd hv (List.not_mem_nil v)
    | cons a l =>
      simp only [hvis, List.dropLast_cons₂] at hv
      rcases List.mem_cons.mp hv with rfl | hv2
      · rfl
      · exact ih v (by rw [hvis]; exact hv2)

/-- A report of a call that returned 0 is the last report of the walk; the walk then ended by
`break` with the stream where that call left it. -/
theorem parse_loop_terminal (frames : Nat → Stack) (left i : Nat) (total : Int) (fp : FILE) :
    ∀ v ∈ (parse_loop frames left i total fp).visits, v.is_terminal = true →
      (parse_loop frames left i total fp).visits.getLast? = some v
      ∧ (parse_loop frames left i total fp).ending = .finished
      ∧ (parse_loop frames left i total fp).fp.pos = v.stop := by
  refine parse_loop_induct frames
    (fun _ _ _ w => ∀ v ∈ w.visits, v.is_terminal = true →
      w.visits.getLast? = some v ∧ w.ending = .finished ∧ w.fp.pos = v.stop)
    ?_ ?_ ?_ ?_ left i total fp
  · intro i total fp v hv
    exact absurd hv (List.not_mem_nil v)
  · intro i total fp why t f _ v hv
    exact absurd hv (List.not_mem_nil v)
  · intro i total fp r t f _ v hv _
    rw [List.mem_singleton] at hv
    subst hv
    exact ⟨rfl, rfl, rfl⟩
  · intro i total fp r t f w _ ih v hv hterm
    rcases List.mem_cons.mp hv with rfl | hv2
    · exact Bool.noConfusion hterm
    · obtain ⟨e1, e2, e3⟩ := ih v hv2 hterm
      refine ⟨?_, e2, e3⟩
      cases hvis : w.visits with
      | nil => rw [hvis] at hv2; exact absurd hv2 (List.not_mem_nil v)
      | cons a l => rw [hvis] at e1; simp only []; rw [List.getLast?_cons_cons]; exact e1

/-- A walk has at most one report of a call that returned 0. -/
theorem parse_loop_count (frames : Nat → Stack) (left i : Nat) (total : Int) (fp : FILE) :
    ((parse_loop frames left i total fp).visits.filter (fun v => v.is_terminal)).length ≤ 1 := by
  refine parse_loop_induct frames
    (fun _ _ _ w => (w.visits.filter (fun v => v.is_terminal)).length ≤ 1)
    ?_ ?_ ?_ ?_ left i total fp
  · intro i total fp
    exact Nat.zero_le _
  · intro i total fp why t f _
    exact Nat.zero_le _
  · intro i total fp r t f _
    exact Nat.le_refl _
  · intro i total fp r t f w _ ih
    simp only [List.filter_cons, Bool.false_eq_true, if_false]
    exact ih

/-! ## The running total along a walk -/

theorem wrap_int_range (x : Int) : -2147483648 ≤ wrap_int x ∧ wrap_int x ≤ 2147483647 := by
  unfold wrap_int
  omega

theorem wrap_int_of_range {x : Int} (h : -2147483648 ≤ x ∧ x ≤ 2147483647) : wrap_int x = x := by
  unfold wrap_int
  omega

theorem wrap_int_add_wrap (a b : Int) : wrap_int (wrap_int a + b) = wrap_int (a + b) := by
  unfold wrap_int
  omega

/-- The static counter after a walk is the counter before it plus the payload lengths of the
reports, wrapped to 32 bits. -/
theorem parse_loop_total (frames : Nat → Stack) (left i : Nat) (total : Int) (fp : FILE)
    (hr : -2147483648 ≤ total ∧ total ≤ 2147483647) :
    (parse_loop frames left i total fp).total_bytes_read
      = wrap_int (total + (((parse_loop frames left i total fp).visits.map
          (fun v => (v.report.total_compressed_bytes : Int))).sum)) := by
  revert hr
  refine parse_loop_induct frames
    (fun _ total _ w => (-2147483648 ≤ total ∧ total ≤ 2147483647) →
      w.total_bytes_read = wrap_int (total + ((w.visits.map
          (fun v => (v.report.total_compressed_bytes : Int))).sum)))
    ?_ ?_ ?_ ?_ left i total fp
  · intro i total fp hr
    simp only [List.map_nil, List.sum_nil, Int.add_zero]
    exact (wrap_int_of_range hr).symm
  · intro i total fp why t f h hr
    simp only [List.map_nil, List.sum_nil, Int.add_zero]
    rw [(exit_pos_ge h).2.2]
    exact (wrap_int_of_range hr).symm
  · intro i total fp r t f h _
    obtain ⟨_, _, _, _, ht, _⟩ := read_bgzf_block_ret_inv h
    simp only [List.map_cons, List.map_nil, List.sum_cons, List.sum_nil, Int.add_zero]
    exact ht
  · intro i total fp r t f w h ih _
    obtain ⟨_, _, _, _, ht, _⟩ := read_bgzf_block_ret_inv h
    have hw := ih (by rw [ht]; exact wrap_int_range _)
    simp only [List.map_cons, List.sum_cons]
    rw [hw, ht, wrap_int_add_wrap, Int.add_assoc]

/-- The total printed with a terminal report is the static counter at the end of the walk. -/
theorem parse_loop_counted (frames : Nat → Stack) (left i : Nat) (total : Int) (fp : FILE) :
    ∀ v ∈ (parse_loop frames left i total fp).visits,
      (v.is_terminal = true →
        v.report.counted = some (parse_loop frames left i total fp).total_bytes_read)
      ∧ (v.is_terminal = false → v.report.counted = none) := by
  refine parse_loop_induct frames
    (fun _ _ _ w => ∀ v ∈ w.visits,
      (v.is_terminal = true → v.report.counted = some w.total_bytes_read)
      ∧ (v.is_terminal = false → v.report.counted = none))
    ?_ ?_ ?_ ?_ left i total fp
  · intro i total fp v hv
    exact absurd hv (List.not_mem_nil v)
  · intro i total fp why t f _ v hv
    exact absurd hv (List.not_mem_nil v)
  · intro i total fp r t f h v hv
    rw [List.mem_singleton] at hv
    subst hv
    obtain ⟨_, _, _, _, _, _, _, _, _, _, hc, _⟩ := read_bgzf_block_ret_inv h
    exact ⟨fun _ => hc.mp rfl, fun hf => Bool.noConfusion hf⟩
  · intro i total fp r t f w h ih v hv
    rcases List.mem_cons.mp hv with rfl | hv2
    · obtain ⟨_, _, _, _, _, _, _, _, _, _, _, hn⟩ := read_bgzf_block_ret_inv h
      exact ⟨fun hf => Bool.noConfusion hf, fun _ => hn.mp rfl⟩
    · exact ih v hv2

/-- The walk over complete members of which only the last has zero low trailer bytes, with
more turns allowed than there are members before the last: one report per member, each with the payload length of
its member (the length of the member less 26), the last one terminal; the walk ends by
`break` with the stream after the last member. -/
theorem walk_all_members (frames : Nat → Stack) (last rest : List Byte)
    (hlast : is_member last) (hz : low_trailer_zero last) :
    ∀ (ms : List (List Byte)) (pre : List Byte) (left i : Nat) (total : Int),
      (∀ m ∈ ms, is_member m ∧ ¬ low_trailer_zero m) → ms.length < left →
      (parse_loop frames left i total
          ⟨pre ++ (ms ++ [last]).flatten ++ rest, pre.length⟩).ending = .finished
      ∧ (parse_loop frames left i total
          ⟨pre ++ (ms ++ [last]).flatten ++ rest, pre.length⟩).visits.map
            (fun v => v.report.total_compressed_bytes)
          = (ms ++ [last]).map (fun m => m.length - 26)
      ∧ (parse_loop frames left i total
          ⟨pre ++ (ms ++ [last]).flatten ++ rest, pre.length⟩).visits.map
            (fun v => v.is_terminal)
          = ms.map (fun _ => false) ++ [true]
      ∧ (parse_loop frames left i total
          ⟨pre ++ (ms ++ [last]).flatten ++ rest, pre.length⟩).fp
          = ⟨pre ++ (ms ++ [last]).flatten ++ rest,
              pre.length + (ms ++ [last]).flatten.length⟩ := by
  intro ms
  induction ms with
  | nil =>
    intro pre left i total _ hleft
    obtain ⟨k, rfl⟩ : ∃ k, left = k + 1 := ⟨left - 1, by omega⟩
    obtain ⟨v, r, t, h, hv, hn, _⟩ :=
      read_member (frames i) total pre last ([].flatten ++ rest) hlast
    have hv0 : v = 0 := hv.mpr hz
    subst hv0
    rw [List.nil_append, layout_cons, parse_loop_break frames k i h]
    refine ⟨rfl, ?_, rfl, ?_⟩
    · simp only [List.map_cons, List.map_nil, List.cons.injEq, and_true]
      omega
    · simp only [List.flatten_cons, List.flatten_nil, List.append_nil]
  | cons m ms ih =>
    intro pre left i total hms hleft
    obtain ⟨k, rfl⟩ : ∃ k, left = k + 1 := ⟨left - 1, by omega⟩
    have hm := hms m (List.mem_cons_self _ _)
    have hms2 : ∀ x ∈ ms, is_member x ∧ ¬ low_trailer_zero x :=
      fun x hx => hms x (List.mem_cons_of_mem _ hx)
    obtain ⟨v, r, t, h, hv, hn, _⟩ :=
      read_member (frames i) total pre m ((ms ++ [last]).flatten ++ rest) hm.1
    have hv0 : v ≠ 0 := fun e => hm.2 (hv.mp e)
    simp only [List.length_cons] at hleft
    rw [List.cons_append, layout_cons, parse_loop_next frames k i h hv0, layout_shift]
    obtain ⟨e1, e2, e3, e4⟩ := ih (pre ++ m) k (i + 1) t hms2 (by omega)
    refine ⟨e1, ?_, ?_, ?_⟩
    · simp only [List.map_cons, e2, List.cons.injEq, and_true]
      omega
    · simp only [List.map_cons, e3, List.cons_append]
    · rw [e4]
      simp only [List.length_append, List.flatten_cons, List.append_assoc, FILE.mk.injEq,
        true_and]
      omega

/-! ## A file larger than two gigabytes -/

theorem big_block_length : big_block.length = 65536 := by
  rw [big_block, List.length_append, List.length_append, List.length_replicate]
  rfl

theorem big_block_head (k : Nat) (hk : k < 18) :
    big_block.getD k 0
      = ([0x1f, 0x8b, 0x08, 0x04, 0, 0, 0, 0, 0, 0xff, 0x06, 0, 0x42, 0x43, 0x02, 0, 0xff, 0xff]
          : List Byte).getD k 0 := by
  rw [big_block]
  exact List.getD_append _ _ _ _ hk

theorem big_block_tail (k : Nat) :
    big_block.getD (65528 + k) 0
      = ([0x78, 0x56, 0x34, 0x12, 0xe6, 0xff, 0, 0] : List Byte).getD k 0 := by
  rw [big_block]
  have h18 : ([0x1f, 0x8b, 0x08, 0x04, 0, 0, 0, 0, 0, 0xff, 0x06, 0, 0x42, 0x43, 0x02, 0, 0xff,
      0xff] : List Byte).length = 18 := rfl
  rw [List.getD_append_right _ _ _ _ (by rw [h18]; omega), h18,
    List.getD_append_right _ _ _ _ (by rw [List.length_replicate]; omega),
    List.length_replicate]
  have e : 65528 + k - 18 - 65510 = k := by omega
  rw [e]

theorem big_block_member : is_member big_block ∧ ¬ low_trailer_zero big_block := by
  unfold is_member low_trailer_zero
  rw [big_block_length, big_block_head 0 (by decide), big_block_head 1 (by decide),
    big_block_head 2 (by decide), big_block_head 3 (by decide), big_block_head 10 (by decide),
    big_block_head 11 (by decide), big_block_head 16 (by decide), big_block_head 17 (by decide)]
  refine ⟨by decide, ?_⟩
  intro h
  have h8 := h.1
  rw [show 65536 - 8 = 65528 + 0 from rfl, big_block_tail 0] at h8
  exact absurd h8 (by decide)

theorem sum_replicate_append (k n a : Nat) :
    ((List.replicate k n ++ [a]).map (fun x : Nat => (x : Int))).sum
      = (k : Int) * (n : Int) + (a : Int) := by
  induction k with
  | zero => simp
  | succ j ih =>
    rw [List.replicate_succ, List.cons_append, List.map_cons, List.sum_cons, ih]
    push_cast
    ring

theorem map_cast_payload (vs : List Visit) :
    vs.map (fun v => (v.report.total_compressed_bytes : Int))
      = (vs.map (fun v => v.report.total_compressed_bytes)).map (fun x : Nat => (x : Int)) := by
  rw [List.map_map]
  rfl

/-! ## Reads at the end of the file -/

/-- A read with the stream at or past the end of the file stores nothing: the array keeps what
it held and the stream stays where it is. -/
theorem read_bytes_at_end (buffer : Nat → Byte) (n : Nat) (fp : FILE)
    (h : fp.data.length ≤ fp.pos) :
    (read_bytes buffer n fp).1 = buffer ∧ (read_bytes buffer n fp).2 = fp := by
  have e : min n (fp.data.length - fp.pos) = 0 := by omega
  unfold read_bytes
  simp only [e, Nat.not_lt_zero, if_false, Nat.add_zero, true_and]

/-! ## Two decodes that start from different running totals -/

/-- The outcome of a call depends on the running total it is entered with only through the
totals it carries and prints. -/
theorem read_forget_total (stk : Stack) (t1 t2 : Int) (fp : FILE) :
    (read_bgzf_block stk t1 fp).forget_total = (read_bgzf_block stk t2 fp).forget_total := by
  unfold read_bgzf_block
  simp only []
  split_ifs <;> rfl

theorem read_exit_shift {stk : Stack} {t1 : Int} {fp : FILE} {why : Failure} {t : Int}
    {f : FILE} (h : read_bgzf_block stk t1 fp = .exit why t f) (t2 : Int) :
    read_bgzf_block stk t2 fp = .exit why t2 f := by
  have e := read_forget_total stk t1 t2 fp
  rw [h] at e
  cases h2 : read_bgzf_block stk t2 fp with
  | exit why2 u g =>
    rw [h2] at e
    simp only [Outcome.forget_total, Outcome.exit.injEq, true_and] at e
    rw [← e.1, ← e.2, (exit_pos_ge h2).2.2]
  | ret v r u g =>
    rw [h2] at e
    exact Outcome.noConfusion e

theorem read_ret_shift {stk : Stack} {t1 : Int} {fp : FILE} {v : Int} {r : Report} {t : Int}
    {f : FILE} (h : read_bgzf_block stk t1 fp = .ret v r t f) (t2 : Int) :
    ∃ r2, read_bgzf_block stk t2 fp
        = .ret v r2 (wrap_int (t2 + (r.total_compressed_bytes : Int))) f
      ∧ r2.forget_total = r.forget_total := by
  have e := read_forget_total stk t1 t2 fp
  rw [h] at e
  cases h2 : read_bgzf_block stk t2 fp with
  | exit why2 u g =>
    rw [h2] at e
    exact Outcome.noConfusion e
  | ret v2 r2 u g =>
    rw [h2] at e
    simp only [Outcome.forget_total, Outcome.ret.injEq, true_and] at e
    obtain ⟨_, _, _, _, hu, _⟩ := read_bgzf_block_ret_inv h2
    have hn : r2.total_compressed_bytes = r.total_compressed_bytes := by
      have := congrArg Report.total_compressed_bytes e.2.1
      exact this.symm
    refine ⟨r2, ?_, e.2.1.symm⟩
    rw [← e.1, ← e.2.2, hu, hn]

/-- Two walks over the same stream with the same array contents differ only in the running
totals. -/
theorem parse_loop_forget_total (frames : Nat → Stack) (left : Nat) :
    ∀ (i : Nat) (t1 t2 : Int) (fp : FILE),
      (parse_loop frames left i t1 fp).forget_total
        = (parse_loop frames left i t2 fp).forget_total := by
  induction left with
  | zero =>
    intro i t1 t2 fp
    rfl
  | succ k ih =>
    intro i t1 t2 fp
    cases h : read_bgzf_block (frames i) t1 fp with
    | exit why t f =>
      rw [parse_loop_exit frames k i h, parse_loop_exit frames k i (read_exit_shift h t2)]
      rfl
    | ret v r t f =>
      obtain ⟨r2, h2, hr⟩ := read_ret_shift h t2
      obtain ⟨_, _, _, _, _, _, _, _, hv, _⟩ := read_bgzf_block_ret_inv h
      rcases hv with rfl | rfl
      · rw [parse_loop_break frames k i h, parse_loop_break frames k i h2]
        simp only [Walk.forget_total, List.map_cons, List.map_nil, hr]
      · rw [parse_loop_next frames k i h (by decide), parse_loop_next frames k i h2 (by decide)]
        have e := ih (i + 1) t (wrap_int (t2 + (r.total_compressed_bytes : Int))) f
        simp only [Walk.forget_total, Walk.mk.injEq, true_and] at e
        simp only [Walk.forget_total, List.map_cons, hr, e.1, e.2.1, e.2.2]

/-! ## Independence of the array contents -/

theorem read_bytes_fst_view (buffer : Nat → Byte) (n : Nat) (fp : FILE) (k : Nat)
    (h : fp.pos + n ≤ fp.data.length) (hk : k < n) :
    (read_bytes buffer n fp).1 k = fp.view k := by
  have hk2 : k < min n (fp.data.length - fp.pos) := by omega
  simp only [read_bytes, if_pos hk2, FILE.view]

theorem bytes_to_short_view (buffer : Nat → Byte) (n : Nat) (fp : FILE) (o : Nat)
    (h : fp.pos + n ≤ fp.data.length) (ho : o + 1 < n) :
    bytes_to_short (read_bytes buffer n fp).1 o = bytes_to_short fp.view o := by
  rw [bytes_to_short_eq, bytes_to_short_eq, read_bytes_fst_view buffer n fp o h (by omega),
    read_bytes_fst_view buffer n fp (o + 1) h ho]

theorem bytes_to_int_view (buffer : Nat → Byte) (n : Nat) (fp : FILE) (o : Nat)
    (h : fp.pos + n ≤ fp.data.length) (ho : o + 1 < n) :
    bytes_to_int (read_bytes buffer n fp).1 o = bytes_to_int fp.view o := by
  rw [bytes_to_int_eq, bytes_to_int_eq, read_bytes_fst_view buffer n fp o h (by omega),
    read_bytes_fst_view buffer n fp (o + 1) h ho]

theorem print_bytes_view (buffer : Nat → Byte) (n : Nat) (fp : FILE)
    (h : fp.pos + n ≤ fp.data.length) :
    print_bytes (read_bytes buffer n fp).1 n = print_bytes fp.view n := by
  unfold print_bytes
  apply List.map_congr_left
  intro k hk
  exact read_bytes_fst_view buffer n fp k h (List.mem_range.mp hk)

/-- When the file holds all the bytes of the member at the position, the outcome of the call
does not depend on what the arrays held before. -/
theorem read_stack_indep (stk1 stk2 : Stack) (total : Int) (fp : FILE)
    (h : fp.holds_member) :
    read_bgzf_block stk1 total fp = read_bgzf_block stk2 total fp := by
  unfold FILE.holds_member at h
  have h12 : fp.pos + 12 ≤ fp.data.length := by omega
  have S1 : ∀ b, (read_bytes b 12 fp).2 = ⟨fp.data, fp.pos + 12⟩ :=
    fun b => read_bytes_snd_of_le b 12 fp h12
  have S2 : ∀ b, (read_bytes b 6 ⟨fp.data, fp.pos + 12⟩).2 = ⟨fp.data, fp.pos + 18⟩ :=
    fun b => read_bytes_snd_of_le b 6 _ (by simp only []; omega)
  have A : ∀ b k, k < 12 → (read_bytes b 12 fp).1 k = fp.view k :=
    fun b k hk => read_bytes_fst_view b 12 fp k h12 hk
  have A0 := fun b => A b 0 (by decide)
  have A1 := fun b => A b 1 (by decide)
  have A2 := fun b => A b 2 (by decide)
  have A3 := fun b => A b 3 (by decide)
  have AX : ∀ b, bytes_to_short (read_bytes b 12 fp).1 10 = bytes_to_short fp.view 10 :=
    fun b => bytes_to_short_view b 12 fp 10 h12 (by decide)
  have AP : ∀ b, print_bytes (read_bytes b 12 fp).1 12 = print_bytes fp.view 12 :=
    fun b => print_bytes_view b 12 fp h12
  have h18 : (⟨fp.data, fp.pos + 12⟩ : FILE).pos + 6
      ≤ (⟨fp.data, fp.pos + 12⟩ : FILE).data.length := by
    simp only []; omega
  have B : ∀ b k, k < 6 → (read_bytes b 6 ⟨fp.data, fp.pos + 12⟩).1 k
      = FILE.view ⟨fp.data, fp.pos + 12⟩ k :=
    fun b k hk => read_bytes_fst_view b 6 _ k h18 hk
  have B0 := fun b => B b 0 (by decide)
  have B1 := fun b => B b 1 (by decide)
  have BL : ∀ b, bytes_to_short (read_bytes b 6 ⟨fp.data, fp.pos + 12⟩).1 2
      = bytes_to_short (FILE.view ⟨fp.data, fp.pos + 12⟩) 2 :=
    fun b => bytes_to_short_view b 6 _ 2 h18 (by decide)
  have BS : ∀ b, bytes_to_short (read_bytes b 6 ⟨fp.data, fp.pos + 12⟩).1 4
      = bytes_to_short (FILE.view ⟨fp.data, fp.pos + 12⟩) 4 :=
    fun b => bytes_to_short_view b 6 _ 4 h18 (by decide)
  unfold read_bgzf_block
  simp only [S1, S2, A0, A1, A2, A3, AX, AP, B0, B1, BL, BS]
  have hE : (((bytes_to_short (FILE.view ⟨fp.data, fp.pos + 12⟩) 4 : Int)
      - (bytes_to_short fp.view 10 : Int) - 19) % 65536).toNat = fp.announced := rfl
  simp only [hE]
  have h22 : (fseek_cur ⟨fp.data, fp.pos + 18⟩ fp.announced).pos + 4
      ≤ (fseek_cur ⟨fp.data, fp.pos + 18⟩ fp.announced).data.length := by
    simp only [fseek_cur]; omega
  have T3 : ∀ b, (read_bytes b 4 (fseek_cur ⟨fp.data, fp.pos + 18⟩ fp.announced)).2
      = ⟨fp.data, fp.pos + 18 + fp.announced + 4⟩ :=
    fun b => read_bytes_snd_of_le b 4 _ h22
  have TC : ∀ b, bytes_to_int (read_bytes b 4 (fseek_cur ⟨fp.data, fp.pos + 18⟩
      fp.announced)).1 0
      = bytes_to_int (FILE.view (fseek_cur ⟨fp.data, fp.pos + 18⟩ fp.announced)) 0 :=
    fun b => bytes_to_int_view b 4 _ 0 h22 (by decide)
  have h26 : (⟨fp.data, fp.pos + 18 + fp.announced + 4⟩ : FILE).pos + 4
      ≤ (⟨fp.data, fp.pos + 18 + fp.announced + 4⟩ : FILE).data.length := by
    simp only []; omega
  have T4 : ∀ b, (read_bytes b 4 ⟨fp.data, fp.pos + 18 + fp.announced + 4⟩).2
      = ⟨fp.data, fp.pos + 18 + fp.announced + 4 + 4⟩ :=
    fun b => read_bytes_snd_of_le b 4 _ h26
  have TI : ∀ b, bytes_to_int (read_bytes b 4 ⟨fp.data, fp.pos + 18 + fp.announced + 4⟩).1 0
      = bytes_to_int (FILE.view ⟨fp.data, fp.pos + 18 + fp.announced + 4⟩) 0 :=
    fun b => bytes_to_int_view b 4 _ 0 h26 (by decide)
  simp only [T3, TC, T4, TI]

/-! ## Two files that differ in bytes the call does not use -/

theorem bytes_to_short_agree {a b : Nat → Byte} {o : Nat} (h0 : a o = b o)
    (h1 : a (o + 1) = b (o + 1)) : bytes_to_short a o = bytes_to_short b o := by
  rw [bytes_to_short_eq, bytes_to_short_eq, h0, h1]

theorem bytes_to_int_agree {a b : Nat → Byte} {o : Nat} (h0 : a o = b o)
    (h1 : a (o + 1) = b (o + 1)) : bytes_to_int a o = bytes_to_int b o := by
  rw [bytes_to_int_eq, bytes_to_int_eq, h0, h1]

/-- Reads from two files of the same length at the same position store the same byte at an
index where the files hold the same byte. -/
theorem read_bytes_fst_agree (buffer : Nat → Byte) (n k : Nat) (d1 d2 : List Byte) (q : Nat)
    (hl : d1.length = d2.length) (hk : d1[q + k]? = d2[q + k]?) :
    (read_bytes buffer n ⟨d1, q⟩).1 k = (read_bytes buffer n ⟨d2, q⟩).1 k := by
  simp only [read_bytes, List.getD_eq_getElem?_getD, hl, hk]

/-- The outcome of the call, header bytes 4 to 9 and subfield bytes 0 to 3 left out, is the
same on two streams when the bytes the call looks at and the positions it reaches are. -/
theorem essence_congr (stk : Stack) (total : Int) (fp1 fp2 : FILE)
    (e0 : (read_bytes stk.header 12 fp1).1 0 = (read_bytes stk.header 12 fp2).1 0)
    (e1 : (read_bytes stk.header 12 fp1).1 1 = (read_bytes stk.header 12 fp2).1 1)
    (e2 : (read_bytes stk.header 12 fp1).1 2 = (read_bytes stk.header 12 fp2).1 2)
    (e3 : (read_bytes stk.header 12 fp1).1 3 = (read_bytes stk.header 12 fp2).1 3)
    (ex : bytes_to_short (read_bytes stk.header 12 fp1).1 10
        = bytes_to_short (read_bytes stk.header 12 fp2).1 10)
    (es : bytes_to_short (read_bytes stk.block 6 (read_bytes stk.header 12 fp1).2).1 4
        = bytes_to_short (read_bytes stk.block 6 (read_bytes stk.header 12 fp2).2).1 4)
    (ep : (read_bytes stk.header 12 fp1).2.pos = (read_bytes stk.header 12 fp2).2.pos)
    (ec : ∀ n, bytes_to_int (read_bytes stk.crc32_buf 4
          (fseek_cur (read_bytes stk.block 6 (read_bytes stk.header 12 fp1).2).2 n)).1 0
        = bytes_to_int (read_bytes stk.crc32_buf 4
          (fseek_cur (read_bytes stk.block 6 (read_bytes stk.header 12 fp2).2).2 n)).1 0)
    (ei : ∀ n, bytes_to_int (read_bytes stk.input_size_buf 4 (read_bytes stk.crc32_buf 4
          (fseek_cur (read_bytes stk.block 6 (read_bytes stk.header 12 fp1).2).2 n)).2).1 0
        = bytes_to_int (read_bytes stk.input_size_buf 4 (read_bytes stk.crc32_buf 4
          (fseek_cur (read_bytes stk.block 6 (read_bytes stk.header 12 fp2).2).2 n)).2).1 0)
    (ef : ∀ n, (read_bytes stk.input_size_buf 4 (read_bytes stk.crc32_buf 4
          (fseek_cur (read_bytes stk.block 6 (read_bytes stk.header 12 fp1).2).2 n)).2).2.pos
        = (read_bytes stk.input_size_buf 4 (read_bytes stk.crc32_buf 4
          (fseek_cur (read_bytes stk.block 6 (read_bytes stk.header 12 fp2).2).2 n)).2).2.pos) :
    (read_bgzf_block stk total fp1).essence = (read_bgzf_block stk total fp2).essence := by
  unfold read_bgzf_block
  simp only [e0, e1, e2, e3, ex, es, ec, ei]
  split_ifs <;> simp only [Outcome.essence, ep, ef]

/-- Two files of the same length that hold the same bytes outside the offsets 4 to 9 and 12
to 15 from the position: the call has the same outcome on both, header bytes 4 to 9 and
subfield bytes 0 to 3 left out. -/
theorem essence_of_same_used_bytes (stk : Stack) (total : Int) (d1 d2 : List Byte) (p : Nat)
    (hl : d1.length = d2.length)
    (hsame : ∀ k, ¬ (4 ≤ k ∧ k ≤ 9) → ¬ (12 ≤ k ∧ k ≤ 15) → d1[p + k]? = d2[p + k]?) :
    (read_bgzf_block stk total ⟨d1, p⟩).essence = (read_bgzf_block stk total ⟨d2, p⟩).essence := by
  have far : ∀ q, (p + 16 ≤ q ∨ d1.length ≤ q) → d1[q]? = d2[q]? := by
    intro q hq
    by_cases hlen : d1.length ≤ q
    · rw [List.getElem?_eq_none hlen, List.getElem?_eq_none (hl ▸ hlen)]
    · have hq2 : p + 16 ≤ q := by omega
      have := hsame (q - p) (by omega) (by omega)
      rwa [show p + (q - p) = q by omega] at this
  have S1 : ∀ d : List Byte, (read_bytes stk.header 12 ⟨d, p⟩).2
      = ⟨d, p + min 12 (d.length - p)⟩ := fun d => rfl
  have S2 : ∀ (d : List Byte) (q : Nat), (read_bytes stk.block 6 ⟨d, q⟩).2
      = ⟨d, q + min 6 (d.length - q)⟩ := fun d q => rfl
  have S3 : ∀ (d : List Byte) (q : Nat), (read_bytes stk.crc32_buf 4 ⟨d, q⟩).2
      = ⟨d, q + min 4 (d.length - q)⟩ := fun d q => rfl
  have S4 : ∀ (d : List Byte) (q : Nat), (read_bytes stk.input_size_buf 4 ⟨d, q⟩).2
      = ⟨d, q + min 4 (d.length - q)⟩ := fun d q => rfl
  have SK : ∀ (d : List Byte) (q n : Nat), fseek_cur ⟨d, q⟩ n = ⟨d, q + n⟩ := fun d q n => rfl
  apply essence_congr
  · exact read_bytes_fst_agree _ 12 0 d1 d2 p hl (hsame 0 (by omega) (by omega))
  · exact read_bytes_fst_agree _ 12 1 d1 d2 p hl (hsame 1 (by omega) (by omega))
  · exact read_bytes_fst_agree _ 12 2 d1 d2 p hl (hsame 2 (by omega) (by omega))
  · exact read_bytes_fst_agree _ 12 3 d1 d2 p hl (hsame 3 (by omega) (by omega))
  · exact bytes_to_short_agree
      (read_bytes_fst_agree _ 12 10 d1 d2 p hl (hsame 10 (by omega) (by omega)))
      (read_bytes_fst_agree _ 12 (10 + 1) d1 d2 p hl (hsame (10 + 1) (by omega) (by omega)))
  · rw [S1, S1, hl]
    exact bytes_to_short_agree
      (read_bytes_fst_agree _ 6 4 d1 d2 _ hl (far _ (by omega)))
      (read_bytes_fst_agree _ 6 (4 + 1) d1 d2 _ hl (far _ (by omega)))
  · rw [S1, S1, hl]
  · intro n
    rw [S1, S1, S2, S2, SK, SK, hl]
    exact bytes_to_int_agree
      (read_bytes_fst_agree _ 4 0 d1 d2 _ hl (far _ (by omega)))
      (read_bytes_fst_agree _ 4 (0 + 1) d1 d2 _ hl (far _ (by omega)))
  · intro n
    rw [S1, S1, S2, S2, SK, SK, S3, S3, hl]
    exact bytes_to_int_agree
      (read_bytes_fst_agree _ 4 0 d1 d2 _ hl (far _ (by omega)))
      (read_bytes_fst_agree _ 4 (0 + 1) d1 d2 _ hl (far _ (by omega)))
  · intro n
    rw [S1, S1, S2, S2, SK, SK, S3, S3, S4, S4, hl]

theorem relabelled_marker_same (k : Nat) (h1 : ¬ (4 ≤ k ∧ k ≤ 9)) (h2 : ¬ (12 ≤ k ∧ k ≤ 15)) :
    (⟨eof_marker, 0⟩ : FILE).peek k = (⟨relabelled_marker, 0⟩ : FILE).peek k := by
  unfold FILE.peek
  simp only [Nat.zero_add]
  by_cases hk : k < 28
  · interval_cases k <;> first | rfl | (exfalso; omega)
  · rw [List.getElem?_eq_none (by simp only [eof_marker, List.length_cons, List.length_nil]; omega),
      List.getElem?_eq_none (by
        simp only [relabelled_marker, List.length_cons, List.length_nil]; omega)]

/-! ## Properties of the block walker -/


/-- C1: when the stream stands at the start of a member that is fully present, with
header bytes `1f 8b 08 04`, XLEN = 6 and BSIZE ≥ 25, `read_bgzf_block` returns and leaves the
stream exactly BSIZE + 1 bytes further on, on the first byte after the member. -/
theorem C1_cursor_at_next_member (stk : Stack) (total : Int) (fp : FILE) (s0 s1 : Byte)
    (h0 : fp.peek 0 = some 0x1f) (h1 : fp.peek 1 = some 0x8b)
    (h2 : fp.peek 2 = some 0x08) (h3 : fp.peek 3 = some 0x04)
    (hx0 : fp.peek 10 = some 6) (hx1 : fp.peek 11 = some 0)
    (hs0 : fp.peek 16 = some s0) (hs1 : fp.peek 17 = some s1)
    (hsize : 25 ≤ s0.val + 256 * s1.val)
    (hfull : fp.pos + (s0.val + 256 * s1.val + 1) ≤ fp.data.length) :
    ∃ v r t, read_bgzf_block stk total fp
      = .ret v r t ⟨fp.data, fp.pos + (s0.val + 256 * s1.val + 1)⟩ := by
  obtain ⟨v, r, t, f, h⟩ := ret_of_peek_valid stk total h0 h1 h2 h3
  obtain ⟨hx, hb⟩ := ret_sizes_of_peek h hx0 hx1 hs0 hs1
  obtain ⟨_, _, _, hn, _⟩ := read_bgzf_block_ret_inv h
  have hx6 : r.extra_length = 6 := by rw [hx]; rfl
  have hn2 : r.total_compressed_bytes = s0.val + 256 * s1.val - 25 := by
    rw [hn, hx6, hb]; omega
  have hf := ret_pos_of_present h (by omega)
  refine ⟨v, r, t, ?_⟩
  rw [h, hf]
  have : fp.pos + 26 + r.total_compressed_bytes = fp.pos + (s0.val + 256 * s1.val + 1) := by
    omega
  rw [this]

/-- C1 at the end-of-file marker: the stream moves from 0 to 28. -/
theorem C1_cursor_at_next_member_witness :
    ∃ v r t, read_bgzf_block zero_stack 0 ⟨eof_marker, 0⟩ = .ret v r t ⟨eof_marker, 28⟩ :=
  C1_cursor_at_next_member zero_stack 0 ⟨eof_marker, 0⟩ 0x1b 0 (by decide) (by decide)
    (by decide) (by decide) (by decide) (by decide) (by decide) (by decide) (by decide)
    (by decide)

/-- C2 (as stated, refuted): on the end-of-file marker, where BSIZE = 27 and XLEN = 6,
`read_bgzf_block` computes the payload length 2, and `BSIZE + 1 - XLEN - 19` is 3. -/
theorem C2_counterexample :
    read_bgzf_block zero_stack 0 ⟨eof_marker, 0⟩
        = .ret 0 ⟨[0x1f, 0x8b, 0x08, 0x04, 0, 0, 0, 0, 0, 0xff, 0x06, 0], 6, 0x42, 0x43, 2, 27, 2,
            0, 0, some 2⟩ 2 ⟨eof_marker, 28⟩
      ∧ (2 : Int) ≠ 27 + 1 - 6 - 19 := by
  decide

/-- C2 (amended): for a member that `read_bgzf_block` decodes, with XLEN the little-endian
value of header bytes 10 and 11 and BSIZE that of subfield bytes 4 and 5, the payload length
that is computed, skipped and added to the running total is `(BSIZE - XLEN - 19) mod 2^16`,
which is `BSIZE - XLEN - 19` exactly whenever `XLEN + 19 ≤ BSIZE`. -/
theorem C2_payload_length (stk : Stack) (total : Int) (fp : FILE) (v : Int) (r : Report)
    (t : Int) (f : FILE) (x0 x1 s0 s1 : Byte)
    (h : read_bgzf_block stk total fp = .ret v r t f)
    (hx0 : fp.peek 10 = some x0) (hx1 : fp.peek 11 = some x1)
    (hs0 : fp.peek 16 = some s0) (hs1 : fp.peek 17 = some s1) :
    r.extra_length = x0.val + 256 * x1.val
    ∧ r.block_size = s0.val + 256 * s1.val
    ∧ (r.total_compressed_bytes : Int)
        = ((s0.val + 256 * s1.val : Int) - (x0.val + 256 * x1.val : Int) - 19) % 65536
    ∧ (x0.val + 256 * x1.val + 19 ≤ s0.val + 256 * s1.val →
        r.total_compressed_bytes + (x0.val + 256 * x1.val) + 19 = s0.val + 256 * s1.val)
    ∧ t = wrap_int (total + (r.total_compressed_bytes : Int))
    ∧ fp.pos + 18 + r.total_compressed_bytes ≤ f.pos
    ∧ f.pos ≤ fp.pos + 18 + r.total_compressed_bytes + 8 := by
  obtain ⟨hx, hb⟩ := ret_sizes_of_peek h hx0 hx1 hs0 hs1
  obtain ⟨_, _, _, hn, ht, hf, _⟩ := read_bgzf_block_ret_inv h
  have hlt := peek_lt hs1
  have hpos : f.pos = fp.pos + 18 + r.total_compressed_bytes
      + min 4 (fp.data.length - (fp.pos + 18 + r.total_compressed_bytes))
      + min 4 (fp.data.length - (fp.pos + 18 + r.total_compressed_bytes
          + min 4 (fp.data.length - (fp.pos + 18 + r.total_compressed_bytes)))) := by
    rw [hf, read_bytes_snd_of_le stk.header 12 fp (by omega),
      read_bytes_snd_of_le stk.block 6 _ (by simp only []; omega)]
    simp only [read_bytes_snd, fseek_cur, FILE.avail]
  refine ⟨hx, hb, ?_, ?_, ht, by omega, by omega⟩
  · rw [hn, hx, hb]
    have := x0.isLt
    have := x1.isLt
    have := s0.isLt
    have := s1.isLt
    omega
  · intro hle
    rw [hn, hx, hb]
    omega

/-- C2 (amended) at the end-of-file marker: BSIZE = 27, XLEN = 6, payload length 2. -/
theorem C2_payload_length_witness :
    read_bgzf_block zero_stack 0 ⟨eof_marker, 0⟩
        = .ret 0 ⟨[0x1f, 0x8b, 0x08, 0x04, 0, 0, 0, 0, 0, 0xff, 0x06, 0], 6, 0x42, 0x43, 2, 27, 2,
            0, 0, some 2⟩ 2 ⟨eof_marker, 28⟩
    ∧ (6 : Nat) = (6 : Byte).val + 256 * (0 : Byte).val
    ∧ (27 : Nat) = (0x1b : Byte).val + 256 * (0 : Byte).val
    ∧ ((2 : Nat) : Int)
        = (((0x1b : Byte).val + 256 * (0 : Byte).val : Int)
            - ((6 : Byte).val + 256 * (0 : Byte).val : Int) - 19) % 65536
    ∧ ((6 : Byte).val + 256 * (0 : Byte).val + 19 ≤ (0x1b : Byte).val + 256 * (0 : Byte).val →
        2 + ((6 : Byte).val + 256 * (0 : Byte).val) + 19 = (0x1b : Byte).val + 256 * (0 : Byte).val)
    ∧ (2 : Int) = wrap_int (0 + ((2 : Nat) : Int))
    ∧ 0 + 18 + 2 ≤ 28
    ∧ 28 ≤ 0 + 18 + 2 + 8 :=
  ⟨by decide,
   C2_payload_length zero_stack 0 ⟨eof_marker, 0⟩ 0
    ⟨[0x1f, 0x8b, 0x08, 0x04, 0, 0, 0, 0, 0, 0xff, 0x06, 0], 6, 0x42, 0x43, 2, 27, 2,
      0, 0, some 2⟩ 2 ⟨eof_marker, 28⟩ 6 0 0x1b 0 (by decide) (by decide) (by decide)
    (by decide) (by decide)⟩

/-- C3 (the code at the failing input): `block_64k` has CRC32 = 0xabcd0000 and
ISIZE = 65536, neither of them zero, and `read_bgzf_block` prints both as 0 and returns 0,
the value that ends the walk. -/
theorem C3_terminal_on_nonzero_trailer :
    member_crc32 block_64k = 2882338816 ∧ member_isize block_64k = 65536
      ∧ read_bgzf_block zero_stack 0 ⟨block_64k, 0⟩
        = .ret 0 ⟨[0x1f, 0x8b, 0x08, 0x04, 0, 0, 0, 0, 0, 0xff, 0x06, 0], 6, 0x42, 0x43, 2, 28, 3,
            0, 0, some 3⟩ 3 ⟨block_64k, 29⟩ := by
  decide

/-- C5 (the code at the failing input): the file `block_64k ++ eof_marker` is made of two
complete members of which only the last has CRC32 = 0 and ISIZE = 0; it is 57 bytes long.
`parse_bgzf` makes one call, which returns 0, and ends with the stream at offset 29: the
end-of-file marker is never decoded and the stream is not at the end of the file. -/
theorem C5_walk_stops_early :
    is_member block_64k ∧ is_member eof_marker
    ∧ ¬ (member_crc32 block_64k = 0 ∧ member_isize block_64k = 0)
    ∧ (member_crc32 eof_marker = 0 ∧ member_isize eof_marker = 0)
    ∧ (block_64k ++ eof_marker).length = 57
    ∧ parse_bgzf (fun _ => zero_stack) 0 ⟨block_64k ++ eof_marker, 0⟩
      = ⟨[⟨1, 0, ⟨[0x1f, 0x8b, 0x08, 0x04, 0, 0, 0, 0, 0, 0xff, 0x06, 0], 6, 0x42, 0x43, 2, 28, 3,
            0, 0, some 3⟩, 29, true⟩], .finished, 3, ⟨block_64k ++ eof_marker, 29⟩⟩ := by
  decide

/-- C6: when the first two bytes at the position are not `1f 8b`, whatever else the
file holds, `read_bgzf_block` ends with the invalid-magic exit; the stream is then where the
one header read left it (12 bytes on, or at the end of a shorter file), so nothing else was
read or skipped, and the running total is the one the call was entered with. -/
theorem C6_invalid_magic (stk : Stack) (total : Int) (fp : FILE) (b0 b1 : Byte)
    (h0 : fp.peek 0 = some b0) (h1 : fp.peek 1 = some b1) (hne : b0 ≠ 0x1f ∨ b1 ≠ 0x8b) :
    read_bgzf_block stk total fp
      = .exit .invalid_magic total ⟨fp.data, fp.pos + min 12 fp.avail⟩ := by
  rw [← read_bytes_snd stk.header 12 fp]
  apply read_bgzf_block_invalid_magic
  rw [read_bytes_fst_of_peek stk.header h0 (by decide),
    read_bytes_fst_of_peek stk.header h1 (by decide)]
  exact hne

/-- C6 on a 28-byte file that starts `1f 00` and goes on like the end-of-file marker. -/
theorem C6_invalid_magic_witness :
    read_bgzf_block zero_stack 7 ⟨0x1f :: 0 :: eof_marker.drop 2, 0⟩
      = .exit .invalid_magic 7 ⟨0x1f :: 0 :: eof_marker.drop 2, 12⟩ :=
  C6_invalid_magic zero_stack 7 ⟨0x1f :: 0 :: eof_marker.drop 2, 0⟩ 0x1f 0 (by decide)
    (by decide) (by decide)

/-- C7: with the four bytes `b0 b1 b2 b3` at the position, if `b0 b1` is `1f 8b` then
`read_bgzf_block` ends with the not-BGZF exit exactly when `b2` is not `08` or `b3` is not
`04`; and the call gets past both checks (it returns) exactly when the four bytes are
`1f 8b 08 04`. -/
theorem C7_not_bgzf_iff (stk : Stack) (total : Int) (fp : FILE) (b0 b1 b2 b3 : Byte)
    (h0 : fp.peek 0 = some b0) (h1 : fp.peek 1 = some b1)
    (h2 : fp.peek 2 = some b2) (h3 : fp.peek 3 = some b3) :
    (b0 = 0x1f → b1 = 0x8b →
      ((∃ t f, read_bgzf_block stk total fp = .exit .not_bgzf t f) ↔ (b2 ≠ 0x08 ∨ b3 ≠ 0x04)))
    ∧ ((∃ v r t f, read_bgzf_block stk total fp = .ret v r t f)
        ↔ (b0 = 0x1f ∧ b1 = 0x8b ∧ b2 = 0x08 ∧ b3 = 0x04)) := by
  have e0 := read_bytes_fst_of_peek stk.header h0 (show 0 < 12 by decide)
  have e1 := read_bytes_fst_of_peek stk.header h1 (show 1 < 12 by decide)
  have e2 := read_bytes_fst_of_peek stk.header h2 (show 2 < 12 by decide)
  have e3 := read_bytes_fst_of_peek stk.header h3 (show 3 < 12 by decide)
  have hret : (∃ v r t f, read_bgzf_block stk total fp = .ret v r t f)
      ↔ (b0 = 0x1f ∧ b1 = 0x8b ∧ b2 = 0x08 ∧ b3 = 0x04) := by
    constructor
    · rintro ⟨v, r, t, f, h⟩
      obtain ⟨hv, _⟩ := read_bgzf_block_ret_inv h
      rw [e0, e1, e2, e3] at hv
      exact hv
    · rintro ⟨rfl, rfl, rfl, rfl⟩
      exact read_bgzf_block_ret_of_valid stk total fp e0 e1 e2 e3
  refine ⟨?_, hret⟩
  intro hb0 hb1
  constructor
  · rintro ⟨t, f, h⟩
    by_contra hc
    have hc2 := not_or.mp hc
    obtain ⟨v, r, t2, f2, h2⟩ :=
      hret.mpr ⟨hb0, hb1, not_not.mp hc2.1, not_not.mp hc2.2⟩
    rw [h] at h2
    exact Outcome.noConfusion h2
  · intro hne
    refine ⟨total, (read_bytes stk.header 12 fp).2, ?_⟩
    apply read_bgzf_block_not_bgzf
    · rw [e0]; exact hb0
    · rw [e1]; exact hb1
    · rw [e2, e3]; exact hne

/-- C7 on a file that starts `1f 8b 08 00`: the not-BGZF exit, and no return. -/
theorem C7_not_bgzf_iff_witness :
    ((0x1f : Byte) = 0x1f → (0x8b : Byte) = 0x8b →
      ((∃ t f, read_bgzf_block zero_stack 0 ⟨[0x1f, 0x8b, 0x08, 0x00, 0, 0], 0⟩
          = .exit .not_bgzf t f) ↔ ((0x08 : Byte) ≠ 0x08 ∨ (0x00 : Byte) ≠ 0x04)))
    ∧ ((∃ v r t f, read_bgzf_block zero_stack 0 ⟨[0x1f, 0x8b, 0x08, 0x00, 0, 0], 0⟩
          = .ret v r t f)
        ↔ ((0x1f : Byte) = 0x1f ∧ (0x8b : Byte) = 0x8b ∧ (0x08 : Byte) = 0x08
            ∧ (0x00 : Byte) = 0x04)) :=
  C7_not_bgzf_iff zero_stack 0 ⟨[0x1f, 0x8b, 0x08, 0x00, 0, 0], 0⟩ 0x1f 0x8b 0x08 0x00
    (by decide) (by decide) (by decide) (by decide)

/-- C8 (as stated, refuted): two members with the header `1f 8b 08 04` and
`BSIZE + 1 < XLEN + 19`.  On `undersized_member` (XLEN = 6, BSIZE = 23) the call skips 65534
bytes, far past the end of the file, and returns with a report; on `wrapped_member`
(XLEN = 65535, BSIZE = 20), all of whose bytes the file has, it skips 2 bytes, reads the
trailer and returns with a report.  Neither call ends in an error. -/
theorem C8_counterexample :
    (23 + 1 < 6 + 19
      ∧ read_bgzf_block zero_stack 0 ⟨undersized_member, 0⟩
        = .ret 0 ⟨[0x1f, 0x8b, 0x08, 0x04, 0, 0, 0, 0, 0, 0xff, 0x06, 0], 6, 0x42, 0x43, 2, 23,
            65534, 0, 0, some 65534⟩ 65534 ⟨undersized_member, 65552⟩)
    ∧ (20 + 1 < 65535 + 19
      ∧ read_bgzf_block zero_stack 0 ⟨wrapped_member, 0⟩
        = .ret 1 ⟨[0x1f, 0x8b, 0x08, 0x04, 0, 0, 0, 0, 0, 0xff, 0xff, 0xff], 65535, 0x42, 0x43,
            2, 20, 2, 1, 1, none⟩ 2 ⟨wrapped_member, 28⟩) := by
  decide

/-- C8 (amended): for a member with the header `1f 8b 08 04` whose sizes satisfy
`BSIZE + 1 < XLEN + 19`, `read_bgzf_block` does not fail: it returns with a report whose
payload length is `(BSIZE - XLEN - 19) mod 2^16` (that is `BSIZE - XLEN - 19` plus 65536, or
plus 131072 when that is still negative), after skipping that many bytes, and the running
total has grown by it. -/
theorem C8_undersized_block_is_decoded (stk : Stack) (total : Int) (fp : FILE)
    (x0 x1 s0 s1 : Byte)
    (h0 : fp.peek 0 = some 0x1f) (h1 : fp.peek 1 = some 0x8b)
    (h2 : fp.peek 2 = some 0x08) (h3 : fp.peek 3 = some 0x04)
    (hx0 : fp.peek 10 = some x0) (hx1 : fp.peek 11 = some x1)
    (hs0 : fp.peek 16 = some s0) (hs1 : fp.peek 17 = some s1)
    (hlt : s0.val + 256 * s1.val + 1 < x0.val + 256 * x1.val + 19) :
    ∃ v r t f, read_bgzf_block stk total fp = .ret v r t f
      ∧ r.block_size = s0.val + 256 * s1.val
      ∧ r.extra_length = x0.val + 256 * x1.val
      ∧ (r.total_compressed_bytes : Int)
          = ((s0.val + 256 * s1.val : Int) - (x0.val + 256 * x1.val : Int) - 19) % 65536
      ∧ (r.total_compressed_bytes + (x0.val + 256 * x1.val) + 19 = s0.val + 256 * s1.val + 65536
          ∨ r.total_compressed_bytes + (x0.val + 256 * x1.val) + 19
              = s0.val + 256 * s1.val + 131072)
      ∧ fp.pos + 18 + r.total_compressed_bytes ≤ f.pos
      ∧ t = wrap_int (total + (r.total_compressed_bytes : Int)) := by
  obtain ⟨v, r, t, f, h⟩ := ret_of_peek_valid stk total h0 h1 h2 h3
  obtain ⟨hx, hb⟩ := ret_sizes_of_peek h hx0 hx1 hs0 hs1
  obtain ⟨_, _, _, hn, ht, hf, _⟩ := read_bgzf_block_ret_inv h
  have hlt2 := peek_lt hs1
  have hpos : fp.pos + 18 + r.total_compressed_bytes ≤ f.pos := by
    rw [hf, read_bytes_snd_of_le stk.header 12 fp (by omega),
      read_bytes_snd_of_le stk.block 6 _ (by simp only []; omega)]
    simp only [read_bytes_snd, fseek_cur]
    omega
  have hb0 := x0.isLt
  have hb1 := x1.isLt
  have hb2 := s0.isLt
  have hb3 := s1.isLt
  refine ⟨v, r, t, f, h, hb, hx, ?_, ?_, hpos, ht⟩
  · rw [hn, hx, hb]; omega
  · rw [hn, hx, hb]; omega

/-- C8 (amended) at `wrapped_member`: the call returns, with payload length 2. -/
theorem C8_undersized_block_is_decoded_witness :
    ∃ v r t f, read_bgzf_block zero_stack 0 ⟨wrapped_member, 0⟩ = .ret v r t f
      ∧ r.block_size = (0x14 : Byte).val + 256 * (0 : Byte).val
      ∧ r.extra_length = (0xff : Byte).val + 256 * (0xff : Byte).val
      ∧ (r.total_compressed_bytes : Int)
          = (((0x14 : Byte).val + 256 * (0 : Byte).val : Int)
              - ((0xff : Byte).val + 256 * (0xff : Byte).val : Int) - 19) % 65536
      ∧ (r.total_compressed_bytes + ((0xff : Byte).val + 256 * (0xff : Byte).val) + 19
            = (0x14 : Byte).val + 256 * (0 : Byte).val + 65536
          ∨ r.total_compressed_bytes + ((0xff : Byte).val + 256 * (0xff : Byte).val) + 19
              = (0x14 : Byte).val + 256 * (0 : Byte).val + 131072)
      ∧ 0 + 18 + r.total_compressed_bytes ≤ f.pos
      ∧ t = wrap_int (0 + (r.total_compressed_bytes : Int)) :=
  C8_undersized_block_is_decoded zero_stack 0 ⟨wrapped_member, 0⟩ 0xff 0xff 0x14 0
    (by decide) (by decide) (by decide) (by decide) (by decide) (by decide) (by decide)
    (by decide) (by decide)

/-- C9: when `read_bgzf_block` returns and the file has all the bytes of the member
(26 plus the payload length computed by the call, counted from the position), the stream has
moved on by exactly `12 + 6 + compressed_payload_length + 8` bytes. -/
theorem C9_cursor_advance (stk : Stack) (total : Int) (fp : FILE) (v : Int) (r : Report)
    (t : Int) (f : FILE) (h : read_bgzf_block stk total fp = .ret v r t f)
    (hfull : fp.pos + 26 + r.total_compressed_bytes ≤ fp.data.length) :
    f.data = fp.data
    ∧ f.pos = fp.pos + (12 + 6 + r.total_compressed_bytes + 8)
    ∧ f.pos = fp.pos + (26 + r.total_compressed_bytes) := by
  rw [ret_pos_of_present h hfull]
  simp only [true_and]
  omega

/-- C9 at the end-of-file marker: payload length 2, and the stream moves from 0 to 28. -/
theorem C9_cursor_advance_witness :
    read_bgzf_block zero_stack 0 ⟨eof_marker, 0⟩
        = .ret 0 ⟨[0x1f, 0x8b, 0x08, 0x04, 0, 0, 0, 0, 0, 0xff, 0x06, 0], 6, 0x42, 0x43, 2, 27, 2,
            0, 0, some 2⟩ 2 ⟨eof_marker, 28⟩
    ∧ (⟨eof_marker, 28⟩ : FILE).pos = (⟨eof_marker, 0⟩ : FILE).pos + (12 + 6 + 2 + 8) :=
  ⟨by decide,
   (C9_cursor_advance zero_stack 0 ⟨eof_marker, 0⟩ 0
    ⟨[0x1f, 0x8b, 0x08, 0x04, 0, 0, 0, 0, 0, 0xff, 0x06, 0], 6, 0x42, 0x43, 2, 27, 2,
      0, 0, some 2⟩ 2 ⟨eof_marker, 28⟩ (by decide) (by decide)).2.1⟩

/-- C10: for every input, the reports of `parse_bgzf` are in member order (they are
numbered 1, 2, 3, ... and each is the report of the `read_bgzf_block` call made where the
one before left the stream, the first at the starting position); at most one of them is
terminal; every report before the last is non-terminal; and a terminal report is the last
one, the walk then ending by `break` with the stream exactly where the terminal call left it,
so that no byte after the end of the first terminal member is read or skipped (the stream
never moves back, and every report stops at or before the final position). -/
theorem C10_reports_in_member_order (frames : Nat → Stack) (total : Int) (fp : FILE) :
    List.Chain' (fun a b : Visit => b.index = a.index + 1 ∧ b.start = a.stop)
      (parse_bgzf frames total fp).visits
    ∧ (∀ v, (parse_bgzf frames total fp).visits.head? = some v →
        v.index = 1 ∧ v.start = fp.pos)
    ∧ (∀ v ∈ (parse_bgzf frames total fp).visits,
        v.start ≤ v.stop ∧ v.stop ≤ (parse_bgzf frames total fp).fp.pos
        ∧ ∃ tot t, read_bgzf_block (frames v.index) tot ⟨fp.data, v.start⟩
            = .ret (if v.is_terminal then 0 else 1) v.report t ⟨fp.data, v.stop⟩)
    ∧ ((parse_bgzf frames total fp).visits.filter (fun v => v.is_terminal)).length ≤ 1
    ∧ (∀ v ∈ (parse_bgzf frames total fp).visits.dropLast, v.is_terminal = false)
    ∧ (∀ v ∈ (parse_bgzf frames total fp).visits, v.is_terminal = true →
        (parse_bgzf frames total fp).visits.getLast? = some v
        ∧ (parse_bgzf frames total fp).ending = .finished
        ∧ (parse_bgzf frames total fp).fp.pos = v.stop) :=
  ⟨parse_loop_chain frames INT_MAX 1 total fp,
   parse_loop_head frames INT_MAX 1 total fp,
   (parse_loop_visits frames INT_MAX 1 total fp).2,
   parse_loop_count frames INT_MAX 1 total fp,
   parse_loop_dropLast frames INT_MAX 1 total fp,
   parse_loop_terminal frames INT_MAX 1 total fp⟩

/-- C14: for every byte array and offset, `bytes_to_short` is `arr[offset]` plus 256 times
`arr[offset+1]`, the unsigned 16-bit little-endian value, a number below 65536; this also
holds when `arr[offset+1]` is 0x80 or more, where the intermediate `(short)` value is
negative (its 32-bit pattern has the sign bit set). -/
theorem C14_bytes_to_short_little_endian (arr : Nat → Byte) (offset : Nat) :
    bytes_to_short arr offset = (arr offset).val + 256 * (arr (offset + 1)).val
    ∧ bytes_to_short arr offset < 65536
    ∧ (128 ≤ (arr (offset + 1)).val →
        2147483648 ≤ to_short (shl (to_short (arr (offset + 1)).val) 8)) := by
  refine ⟨bytes_to_short_eq arr offset, bytes_to_short_lt arr offset, ?_⟩
  intro h
  have h1 := (arr (offset + 1)).isLt
  rw [to_short_byte _ h1, shl_byte _ 8 h1 (by decide)]
  unfold to_short
  have e : (2 ^ 8 * (arr (offset + 1)).val) % 65536 = 256 * (arr (offset + 1)).val := by omega
  rw [e, if_neg (by omega)]
  omega

/-- C15 (the code at the failing input): on the four bytes `00 00 01 00`, whose 32-bit
little-endian value is 65536, `bytes_to_int` gives 0; on `34 12 cd ab`, whose value is
0xabcd1234, it gives 0x1234; on `00 80 00 00`, whose value is 32768, it gives 0xffff8000. -/
theorem C15_bytes_to_int_drops_high_bytes :
    (bytes_to_int (fun i => [0x00, 0x00, 0x01, 0x00].getD i 0) 0 = 0
      ∧ le32 0x00 0x00 0x01 0x00 = 65536)
    ∧ (bytes_to_int (fun i => [0x34, 0x12, 0xcd, 0xab].getD i 0) 0 = 4660
      ∧ le32 0x34 0x12 0xcd 0xab = 2882343476)
    ∧ (bytes_to_int (fun i => [0x00, 0x80, 0x00, 0x00].getD i 0) 0 = 4294934528
      ∧ le32 0x00 0x80 0x00 0x00 = 32768) := by
  decide

/-- C16 (as stated, refuted): on the four bytes `00 80 ff ff`, where `b1` is 0x80 and `b2`,
`b3` are not zero, `bytes_to_int` gives 0xffff8000, which is the 32-bit little-endian value
of the four bytes: the result does not differ from the true value. -/
theorem C16_counterexample :
    bytes_to_int (fun i => [0x00, 0x80, 0xff, 0xff].getD i 0) 0 = 4294934528
    ∧ le32 0x00 0x80 0xff 0xff = 4294934528 := by
  decide

/-- C16 (amended): with `v = b0 + 256 * b1`, `bytes_to_int` returns `v` when
`v < 0x8000` and `v + 0xFFFF0000` otherwise; two arrays with the same `b0` and `b1` give the
same result, whatever `b2` and `b3` are; and the result is the 32-bit little-endian value of
the four bytes exactly when `b2` and `b3` are the sign extension of `b1` (both `00` when
`b1 < 0x80`, both `ff` when `b1 >= 0x80`), so it differs from it in every other case. -/
theorem C16_bytes_to_int_low_half (arr : Nat → Byte) (offset : Nat) :
    bytes_to_int arr offset
      = (if (arr offset).val + 256 * (arr (offset + 1)).val < 32768
         then (arr offset).val + 256 * (arr (offset + 1)).val
         else (arr offset).val + 256 * (arr (offset + 1)).val + 4294901760)
    ∧ (∀ other : Nat → Byte, other offset = arr offset → other (offset + 1) = arr (offset + 1) →
        bytes_to_int other offset = bytes_to_int arr offset)
    ∧ (bytes_to_int arr offset
          = le32 (arr offset) (arr (offset + 1)) (arr (offset + 2)) (arr (offset + 3))
        ↔ ((arr (offset + 1)).val < 128 ∧ (arr (offset + 2)).val = 0
              ∧ (arr (offset + 3)).val = 0)
          ∨ (128 ≤ (arr (offset + 1)).val ∧ (arr (offset + 2)).val = 255
              ∧ (arr (offset + 3)).val = 255)) := by
  have h0 := (arr offset).isLt
  have h1 := (arr (offset + 1)).isLt
  have h2 := (arr (offset + 2)).isLt
  have h3 := (arr (offset + 3)).isLt
  refine ⟨bytes_to_int_eq arr offset, ?_, ?_⟩
  · intro other e0 e1
    rw [bytes_to_int_eq, bytes_to_int_eq, e0, e1]
  · rw [bytes_to_int_eq]
    unfold le32
    split <;> omega

/-- C18: for a member that `read_bgzf_block` decodes, with `c0 c1` the first two bytes of
the CRC32 field and `i0 i1` the first two bytes of the ISIZE field in the file (trailer bytes
0, 1, 4 and 5, at offsets 18, 19, 22 and 23 after the payload), the call returns 0 (terminal)
exactly when these four bytes are zero, and 1 otherwise; trailer bytes 2, 3, 6 and 7 do not
occur in the condition. -/
theorem C18_terminal_iff_low_trailer_bytes (stk : Stack) (total : Int) (fp : FILE) (v : Int)
    (r : Report) (t : Int) (f : FILE) (c0 c1 i0 i1 : Byte)
    (h : read_bgzf_block stk total fp = .ret v r t f)
    (hc0 : fp.peek (18 + r.total_compressed_bytes) = some c0)
    (hc1 : fp.peek (19 + r.total_compressed_bytes) = some c1)
    (hi0 : fp.peek (22 + r.total_compressed_bytes) = some i0)
    (hi1 : fp.peek (23 + r.total_compressed_bytes) = some i1) :
    (v = 0 ↔ (c0 = 0 ∧ c1 = 0 ∧ i0 = 0 ∧ i1 = 0))
    ∧ (v = 1 ↔ ¬ (c0 = 0 ∧ c1 = 0 ∧ i0 = 0 ∧ i1 = 0)) := by
  have hz := ret_zero_iff_of_peek h hc0 hc1 hi0 hi1
  obtain ⟨_, _, _, _, _, _, _, _, hv, _⟩ := read_bgzf_block_ret_inv h
  refine ⟨hz, ?_⟩
  constructor
  · intro h1 hc
    have := hz.mpr hc
    omega
  · intro hn
    rcases hv with h0 | h1
    · exact absurd (hz.mp h0) hn
    · exact h1

/-- C18 at `block_64k`, a data block with CRC32 = 0xabcd0000 and ISIZE = 65536: trailer
bytes 0, 1, 4 and 5 are zero, the call returns 0, and the walk over `block_64k` followed by
the end-of-file marker ends after this one report. -/
theorem C18_terminal_iff_low_trailer_bytes_witness :
    (((0 : Int) = 0 ↔ ((0x00 : Byte) = 0 ∧ (0x00 : Byte) = 0 ∧ (0x00 : Byte) = 0
        ∧ (0x00 : Byte) = 0))
      ∧ ((0 : Int) = 1 ↔ ¬ ((0x00 : Byte) = 0 ∧ (0x00 : Byte) = 0 ∧ (0x00 : Byte) = 0
        ∧ (0x00 : Byte) = 0)))
    ∧ member_isize block_64k = 65536
    ∧ (parse_bgzf (fun _ => zero_stack) 0 ⟨block_64k ++ eof_marker, 0⟩).visits.length = 1
    ∧ (parse_bgzf (fun _ => zero_stack) 0 ⟨block_64k ++ eof_marker, 0⟩).ending = .finished :=
  ⟨C18_terminal_iff_low_trailer_bytes zero_stack 0 ⟨block_64k, 0⟩ 0
      ⟨[0x1f, 0x8b, 0x08, 0x04, 0, 0, 0, 0, 0, 0xff, 0x06, 0], 6, 0x42, 0x43, 2, 28, 3,
        0, 0, some 3⟩ 3 ⟨block_64k, 29⟩ 0x00 0x00 0x00 0x00
      (by decide) (by decide) (by decide) (by decide) (by decide),
    by decide, by decide, by decide⟩

/-- C19 (as stated, refuted): with XLEN = 65535 and BSIZE = 0, where BSIZE < XLEN + 19,
`read_bgzf_block` computes the payload length 65518, and `BSIZE - XLEN - 19 + 65536` is
-18. -/
theorem C19_counterexample :
    read_bgzf_block zero_stack 0 ⟨oversized_xlen, 0⟩
        = .ret 0 ⟨[0x1f, 0x8b, 0x08, 0x04, 0, 0, 0, 0, 0, 0xff, 0xff, 0xff], 65535, 0x42, 0x43,
            2, 0, 65518, 0, 0, some 65518⟩ 65518 ⟨oversized_xlen, 65536⟩
    ∧ (65518 : Int) ≠ 0 - 65535 - 19 + 65536 := by
  decide

/-- C19 (amended): for every BSIZE and XLEN (the little-endian values of subfield bytes
4, 5 and header bytes 10, 11) after the header `1f 8b 08 04`, `read_bgzf_block` returns: no
pair of sizes makes it fail.  The payload length it computes is `(BSIZE - XLEN - 19) mod 2^16`,
a number below 65536: `BSIZE - XLEN - 19` when `BSIZE >= XLEN + 19`, that plus 65536 when
`XLEN + 19 - 65536 <= BSIZE < XLEN + 19`, and that plus 131072 when
`BSIZE < XLEN + 19 - 65536`. -/
theorem C19_payload_length_wraps (stk : Stack) (total : Int) (fp : FILE) (x0 x1 s0 s1 : Byte)
    (h0 : fp.peek 0 = some 0x1f) (h1 : fp.peek 1 = some 0x8b)
    (h2 : fp.peek 2 = some 0x08) (h3 : fp.peek 3 = some 0x04)
    (hx0 : fp.peek 10 = some x0) (hx1 : fp.peek 11 = some x1)
    (hs0 : fp.peek 16 = some s0) (hs1 : fp.peek 17 = some s1) :
    ∃ v r t f, read_bgzf_block stk total fp = .ret v r t f
      ∧ r.block_size = s0.val + 256 * s1.val
      ∧ r.extra_length = x0.val + 256 * x1.val
      ∧ (r.total_compressed_bytes : Int)
          = ((r.block_size : Int) - (r.extra_length : Int) - 19) % 65536
      ∧ r.total_compressed_bytes < 65536
      ∧ (r.extra_length + 19 ≤ r.block_size →
          r.total_compressed_bytes + r.extra_length + 19 = r.block_size)
      ∧ (r.block_size < r.extra_length + 19 → r.extra_length + 19 ≤ r.block_size + 65536 →
          r.total_compressed_bytes + r.extra_length + 19 = r.block_size + 65536)
      ∧ (r.block_size + 65536 < r.extra_length + 19 →
          r.total_compressed_bytes + r.extra_length + 19 = r.block_size + 131072) := by
  obtain ⟨v, r, t, f, h⟩ := ret_of_peek_valid stk total h0 h1 h2 h3
  obtain ⟨hx, hb⟩ := ret_sizes_of_peek h hx0 hx1 hs0 hs1
  obtain ⟨_, _, _, hn, _⟩ := read_bgzf_block_ret_inv h
  have hb0 := x0.isLt
  have hb1 := x1.isLt
  have hb2 := s0.isLt
  have hb3 := s1.isLt
  refine ⟨v, r, t, f, h, hb, hx, ?_, ?_, ?_, ?_, ?_⟩
  · omega
  · omega
  · intro _; omega
  · intro _ _; omega
  · intro _; omega

/-- C19 (amended) at `oversized_xlen`: XLEN = 65535, BSIZE = 0, the call returns. -/
theorem C19_payload_length_wraps_witness :
    ∃ v r t f, read_bgzf_block zero_stack 0 ⟨oversized_xlen, 0⟩ = .ret v r t f
      ∧ r.block_size = (0 : Byte).val + 256 * (0 : Byte).val
      ∧ r.extra_length = (0xff : Byte).val + 256 * (0xff : Byte).val
      ∧ (r.total_compressed_bytes : Int)
          = ((r.block_size : Int) - (r.extra_length : Int) - 19) % 65536
      ∧ r.total_compressed_bytes < 65536
      ∧ (r.extra_length + 19 ≤ r.block_size →
          r.total_compressed_bytes + r.extra_length + 19 = r.block_size)
      ∧ (r.block_size < r.extra_length + 19 → r.extra_length + 19 ≤ r.block_size + 65536 →
          r.total_compressed_bytes + r.extra_length + 19 = r.block_size + 65536)
      ∧ (r.block_size + 65536 < r.extra_length + 19 →
          r.total_compressed_bytes + r.extra_length + 19 = r.block_size + 131072) :=
  C19_payload_length_wraps zero_stack 0 ⟨oversized_xlen, 0⟩ 0xff 0xff 0 0
    (by decide) (by decide) (by decide) (by decide) (by decide) (by decide) (by decide)
    (by decide)

/-- C11 (as stated, refuted): the walk over `plain_block` (a complete non-terminal block,
CRC32 = 0x12345678, ISIZE = 3) followed by the end-of-file marker yields two reports, the
second terminal, and the payload length of the second report is 2 (the bytes `03 00`),
not 0. -/
theorem C11_counterexample :
    is_member plain_block
    ∧ ¬ (member_crc32 plain_block = 0 ∧ member_isize plain_block = 0)
    ∧ (parse_bgzf (fun _ => zero_stack) 0 ⟨plain_block ++ eof_marker, 0⟩).visits.map
        (fun v => (v.is_terminal, v.report.total_compressed_bytes)) = [(false, 3), (true, 2)]
    ∧ (2 : Nat) ≠ 0 := by
  decide

/-- C11 (amended): for every complete block `B` (header `1f 8b 08 04`, XLEN = 6, length
BSIZE + 1) whose trailer bytes 0, 1, 4 and 5 are not all zero, the walk over the file made of
`B` followed by the 28-byte end-of-file marker yields exactly 2 reports, the first
non-terminal with the payload length of `B`, the second terminal with payload length 2; the
walk ends by `break` at the end of the file. -/
theorem C11_block_then_eof_marker (frames : Nat → Stack) (total : Int) (B : List Byte)
    (hB : is_member B) (hnt : ¬ low_trailer_zero B) :
    (parse_bgzf frames total ⟨B ++ eof_marker, 0⟩).visits.length = 2
    ∧ (parse_bgzf frames total ⟨B ++ eof_marker, 0⟩).visits.map (fun v => v.is_terminal)
        = [false, true]
    ∧ (parse_bgzf frames total ⟨B ++ eof_marker, 0⟩).visits.map
        (fun v => v.report.total_compressed_bytes) = [B.length - 26, 2]
    ∧ (parse_bgzf frames total ⟨B ++ eof_marker, 0⟩).ending = .finished
    ∧ (parse_bgzf frames total ⟨B ++ eof_marker, 0⟩).fp.pos = (B ++ eof_marker).length := by
  have hfile : (⟨B ++ eof_marker, 0⟩ : FILE)
      = ⟨[] ++ ([B] ++ [eof_marker]).flatten ++ [], ([] : List Byte).length⟩ := by
    simp only [List.nil_append, List.append_nil, List.length_nil, List.cons_append,
      List.flatten_cons, List.flatten_nil]
  have hw := walk_all_members frames eof_marker [] (by decide) (by decide) [B] [] INT_MAX 1
    total (by
      intro m hm
      rw [List.mem_singleton] at hm
      subst hm
      exact ⟨hB, hnt⟩) (show 1 < INT_MAX by decide)
  unfold parse_bgzf
  rw [hfile]
  obtain ⟨e1, e2, e3, e4⟩ := hw
  refine ⟨?_, e3, ?_, e1, ?_⟩
  · have := congrArg List.length e3
    simpa using this
  · rw [e2]
    rfl
  · rw [e4]
    simp only [List.nil_append, List.append_nil, List.length_nil, List.cons_append,
      List.flatten_cons, List.flatten_nil, Nat.zero_add]

/-- C11 (amended) at `B = plain_block`. -/
theorem C11_block_then_eof_marker_witness :
    (parse_bgzf (fun _ => zero_stack) 0 ⟨plain_block ++ eof_marker, 0⟩).visits.length = 2
    ∧ (parse_bgzf (fun _ => zero_stack) 0 ⟨plain_block ++ eof_marker, 0⟩).visits.map
        (fun v => v.is_terminal) = [false, true]
    ∧ (parse_bgzf (fun _ => zero_stack) 0 ⟨plain_block ++ eof_marker, 0⟩).visits.map
        (fun v => v.report.total_compressed_bytes) = [plain_block.length - 26, 2]
    ∧ (parse_bgzf (fun _ => zero_stack) 0 ⟨plain_block ++ eof_marker, 0⟩).ending = .finished
    ∧ (parse_bgzf (fun _ => zero_stack) 0 ⟨plain_block ++ eof_marker, 0⟩).fp.pos
        = (plain_block ++ eof_marker).length :=
  C11_block_then_eof_marker (fun _ => zero_stack) 0 plain_block (by decide) (by decide)

/-- C17 (as stated, refuted): the file made of 32800 copies of `big_block` (65510 payload
bytes each) followed by the end-of-file marker, a little over two gigabytes.  Starting from a
running total of 0, `parse_bgzf` decodes all 32801 members; their payload lengths add up to
2148728002, and the running total, which is also the number printed with the terminal report,
is -2146239294: the `int` counter has wrapped. -/
theorem C17_counterexample :
    (∀ m ∈ List.replicate 32800 big_block, is_member m) ∧ is_member eof_marker
    ∧ (parse_bgzf (fun _ => zero_stack) 0
        ⟨(List.replicate 32800 big_block ++ [eof_marker]).flatten, 0⟩).ending = .finished
    ∧ ((parse_bgzf (fun _ => zero_stack) 0
        ⟨(List.replicate 32800 big_block ++ [eof_marker]).flatten, 0⟩).visits.map
          (fun v => (v.report.total_compressed_bytes : Int))).sum = 2148728002
    ∧ (parse_bgzf (fun _ => zero_stack) 0
        ⟨(List.replicate 32800 big_block ++ [eof_marker]).flatten, 0⟩).total_bytes_read
          = -2146239294
    ∧ ∀ v ∈ (parse_bgzf (fun _ => zero_stack) 0
        ⟨(List.replicate 32800 big_block ++ [eof_marker]).flatten, 0⟩).visits,
        v.is_terminal = true → v.report.counted = some (-2146239294) := by
  have hall : ∀ m ∈ List.replicate 32800 big_block,
      is_member m ∧ ¬ low_trailer_zero m := by
    intro m hm
    rw [List.eq_of_mem_replicate hm]
    exact big_block_member
  have hfile : (⟨(List.replicate 32800 big_block ++ [eof_marker]).flatten, 0⟩ : FILE)
      = ⟨[] ++ (List.replicate 32800 big_block ++ [eof_marker]).flatten ++ [],
          ([] : List Byte).length⟩ := by
    rw [List.nil_append, List.append_nil, List.length_nil]
  have hw := walk_all_members (fun _ => zero_stack) eof_marker [] (by decide) (by decide)
    (List.replicate 32800 big_block) [] INT_MAX 1 0 hall
    (by rw [List.length_replicate]; decide)
  have ht := parse_loop_total (fun _ => zero_stack) INT_MAX 1 0
    ⟨[] ++ (List.replicate 32800 big_block ++ [eof_marker]).flatten ++ [],
      ([] : List Byte).length⟩ (by decide)
  have hc := parse_loop_counted (fun _ => zero_stack) INT_MAX 1 0
    ⟨[] ++ (List.replicate 32800 big_block ++ [eof_marker]).flatten ++ [],
      ([] : List Byte).length⟩
  unfold parse_bgzf
  rw [hfile]
  obtain ⟨e1, e2, _, _⟩ := hw
  have hsum : ((parse_loop (fun _ => zero_stack) INT_MAX 1 0
      ⟨[] ++ (List.replicate 32800 big_block ++ [eof_marker]).flatten ++ [],
        ([] : List Byte).length⟩).visits.map
          (fun v => (v.report.total_compressed_bytes : Int))).sum = 2148728002 := by
    rw [map_cast_payload, e2, List.map_append, List.map_replicate, big_block_length,
      List.map_cons, List.map_nil, show eof_marker.length - 26 = 2 from rfl,
      show 65536 - 26 = 65510 from rfl, sum_replicate_append]
    rfl
  have htot : (parse_loop (fun _ => zero_stack) INT_MAX 1 0
      ⟨[] ++ (List.replicate 32800 big_block ++ [eof_marker]).flatten ++ [],
        ([] : List Byte).length⟩).total_bytes_read = -2146239294 := by
    rw [ht, hsum]
    rfl
  refine ⟨fun m hm => (hall m hm).1, by decide, e1, hsum, htot, ?_⟩
  intro v hv hterm
  rw [(hc v hv).1 hterm, htot]

/-- C17 (amended): starting from a running total of 0, after `parse_bgzf` has decoded
members m1..mn the running total is the sum of their payload lengths reduced to a 32-bit
`int` (wrapped modulo 2^32 into -2^31 .. 2^31 - 1), so it is the sum itself whenever the sum
is at most 2^31 - 1; it is the number printed with the terminal report.  Each
`read_bgzf_block` call that returns increases the total by exactly that call's payload
length (with the same wrap), and a call that exits leaves it unchanged: header, subfield and
trailer bytes are never counted. -/
theorem C17_running_total (frames : Nat → Stack) (fp : FILE) :
    (parse_bgzf frames 0 fp).total_bytes_read
        = wrap_int (((parse_bgzf frames 0 fp).visits.map
            (fun v => (v.report.total_compressed_bytes : Int))).sum)
    ∧ (((parse_bgzf frames 0 fp).visits.map
            (fun v => (v.report.total_compressed_bytes : Int))).sum ≤ 2147483647 →
        (parse_bgzf frames 0 fp).total_bytes_read
          = ((parse_bgzf frames 0 fp).visits.map
              (fun v => (v.report.total_compressed_bytes : Int))).sum)
    ∧ (∀ v ∈ (parse_bgzf frames 0 fp).visits, v.is_terminal = true →
        v.report.counted = some (parse_bgzf frames 0 fp).total_bytes_read)
    ∧ (∀ (stk : Stack) (total : Int) (g : FILE) (v : Int) (r : Report) (t : Int) (f : FILE),
        read_bgzf_block stk total g = .ret v r t f →
          t = wrap_int (total + (r.total_compressed_bytes : Int))
          ∧ (total + (r.total_compressed_bytes : Int) ≤ 2147483647 → -2147483648 ≤ total →
              t = total + (r.total_compressed_bytes : Int)))
    ∧ (∀ (stk : Stack) (total : Int) (g : FILE) (why : Failure) (t : Int) (f : FILE),
        read_bgzf_block stk total g = .exit why t f → t = total) := by
  have ht := parse_loop_total frames INT_MAX 1 0 fp (by decide)
  rw [Int.zero_add] at ht
  have hnn : 0 ≤ ((parse_bgzf frames 0 fp).visits.map
      (fun v => (v.report.total_compressed_bytes : Int))).sum := by
    apply List.sum_nonneg
    intro x hx
    obtain ⟨v, _, rfl⟩ := List.mem_map.mp hx
    exact Int.ofNat_nonneg _
  refine ⟨ht, ?_, ?_, ?_, ?_⟩
  · intro hle
    unfold parse_bgzf at hnn hle ⊢
    rw [ht]
    exact wrap_int_of_range ⟨by omega, hle⟩
  · intro v hv hterm
    exact (parse_loop_counted frames INT_MAX 1 0 fp v hv).1 hterm
  · intro stk total g v r t f h
    obtain ⟨_, _, _, _, ht2, _⟩ := read_bgzf_block_ret_inv h
    refine ⟨ht2, ?_⟩
    intro hle hge
    rw [ht2]
    exact wrap_int_of_range ⟨by omega, hle⟩
  · intro stk total g why t f h
    exact (exit_pos_ge h).2.2

/-- C12 (as stated, refuted): `truncated_member` holds a header, a subfield that announces
a 10-byte payload, and only 3 more bytes.  `read_bgzf_block` does not fail on it: it skips 10
bytes, which takes the stream to offset 28 of a 21-byte file, reads no trailer byte, and returns
with a report whose CRC32 and ISIZE come from what `crc32_buf` and `input_size_buf` held
before the call (a terminal report when they held zeros, a non-terminal one when they held
ones). -/
theorem C12_counterexample :
    truncated_member.length = 21
    ∧ read_bgzf_block zero_stack 0 ⟨truncated_member, 0⟩
        = .ret 0 ⟨[0x1f, 0x8b, 0x08, 0x04, 0, 0, 0, 0, 0, 0xff, 0x06, 0], 6, 0x42, 0x43, 2, 35,
            10, 0, 0, some 10⟩ 10 ⟨truncated_member, 28⟩
    ∧ read_bgzf_block ones_stack 0 ⟨truncated_member, 0⟩
        = .ret 1 ⟨[0x1f, 0x8b, 0x08, 0x04, 0, 0, 0, 0, 0, 0xff, 0x06, 0], 6, 0x42, 0x43, 2, 35,
            10, 257, 257, none⟩ 10 ⟨truncated_member, 28⟩ := by
  decide

/-- C12 (amended): for every input that holds the four bytes `1f 8b 08 04` at the position
and ends inside the member, `read_bgzf_block` does not fail: it returns with a report.  When
the header and the subfield are present and the file ends before the end of the trailer, the
stream is left at the end of the file or, if that is further on, at the end of the skipped
payload; and when the file ends before the trailer starts, the CRC32 and ISIZE of the report
are computed from what the arrays `crc32_buf` and `input_size_buf` held before the call. -/
theorem C12_truncated_member_is_decoded (stk : Stack) (total : Int) (fp : FILE)
    (h0 : fp.peek 0 = some 0x1f) (h1 : fp.peek 1 = some 0x8b)
    (h2 : fp.peek 2 = some 0x08) (h3 : fp.peek 3 = some 0x04) :
    ∃ v r t f, read_bgzf_block stk total fp = .ret v r t f
      ∧ (fp.pos + 18 ≤ fp.data.length →
          fp.data.length < fp.pos + 26 + r.total_compressed_bytes →
          f.pos = max fp.data.length (fp.pos + 18 + r.total_compressed_bytes)
          ∧ (fp.data.length ≤ fp.pos + 18 + r.total_compressed_bytes →
              r.crc32 = to_int (bytes_to_int stk.crc32_buf 0)
              ∧ r.input_size = to_int (bytes_to_int stk.input_size_buf 0)
              ∧ (v = 0 ↔ to_int (bytes_to_int stk.crc32_buf 0) = 0
                    ∧ to_int (bytes_to_int stk.input_size_buf 0) = 0))) := by
  obtain ⟨v, r, t, f, h⟩ := ret_of_peek_valid stk total h0 h1 h2 h3
  obtain ⟨_, _, _, _, _, hf, hc, hi, _, hv, _⟩ := read_bgzf_block_ret_inv h
  refine ⟨v, r, t, f, h, ?_⟩
  intro h18 htrunc
  have e2 : (read_bytes stk.block 6 (read_bytes stk.header 12 fp).2).2
      = ⟨fp.data, fp.pos + 18⟩ := by
    rw [read_bytes_snd_of_le stk.header 12 fp (by omega),
      read_bytes_snd_of_le stk.block 6 _ (by simp only []; omega)]
  rw [e2] at hf hc hi
  constructor
  · rw [hf]
    simp only [read_bytes_snd, fseek_cur, FILE.avail]
    omega
  · intro hend
    have e3 := read_bytes_at_end stk.crc32_buf 4
      (fseek_cur ⟨fp.data, fp.pos + 18⟩ r.total_compressed_bytes) (by
        unfold fseek_cur
        simp only []
        omega)
    have e4 := read_bytes_at_end stk.input_size_buf 4
      (fseek_cur ⟨fp.data, fp.pos + 18⟩ r.total_compressed_bytes) (by
        unfold fseek_cur
        simp only []
        omega)
    rw [e3.2, e4.1] at hi
    rw [e3.1] at hc
    refine ⟨hc, hi, ?_⟩
    rw [hv, hc, hi]

/-- C12 (amended) at `truncated_member`: the call returns and the stream is at offset 28. -/
theorem C12_truncated_member_is_decoded_witness :
    ∃ v r t f, read_bgzf_block ones_stack 0 ⟨truncated_member, 0⟩ = .ret v r t f
      ∧ ((⟨truncated_member, 0⟩ : FILE).pos + 18 ≤ truncated_member.length →
          truncated_member.length
            < (⟨truncated_member, 0⟩ : FILE).pos + 26 + r.total_compressed_bytes →
          f.pos = max truncated_member.length
            ((⟨truncated_member, 0⟩ : FILE).pos + 18 + r.total_compressed_bytes)
          ∧ (truncated_member.length
              ≤ (⟨truncated_member, 0⟩ : FILE).pos + 18 + r.total_compressed_bytes →
              r.crc32 = to_int (bytes_to_int ones_stack.crc32_buf 0)
              ∧ r.input_size = to_int (bytes_to_int ones_stack.input_size_buf 0)
              ∧ (v = 0 ↔ to_int (bytes_to_int ones_stack.crc32_buf 0) = 0
                    ∧ to_int (bytes_to_int ones_stack.input_size_buf 0) = 0))) :=
  C12_truncated_member_is_decoded ones_stack 0 ⟨truncated_member, 0⟩
    (by decide) (by decide) (by decide) (by decide)

/-- C13 (as stated, refuted): the end-of-file marker decoded from offset 0 with the running
total at 0 reports "counted 2"; decoded again from offset 0 in the same process, where the
static total is now 2, it reports "counted 4".  And `truncated_member`, which ends inside the
payload, decoded from offset 0 gives a terminal report when the arrays held zeros and a
non-terminal report when they held ones. -/
theorem C13_counterexample :
    (read_bgzf_block zero_stack 0 ⟨eof_marker, 0⟩
        = .ret 0 ⟨[0x1f, 0x8b, 0x08, 0x04, 0, 0, 0, 0, 0, 0xff, 0x06, 0], 6, 0x42, 0x43, 2, 27, 2,
            0, 0, some 2⟩ 2 ⟨eof_marker, 28⟩
      ∧ read_bgzf_block zero_stack 2 ⟨eof_marker, 0⟩
        = .ret 0 ⟨[0x1f, 0x8b, 0x08, 0x04, 0, 0, 0, 0, 0, 0xff, 0x06, 0], 6, 0x42, 0x43, 2, 27, 2,
            0, 0, some 4⟩ 4 ⟨eof_marker, 28⟩)
    ∧ ((parse_bgzf (fun _ => zero_stack) 0 ⟨eof_marker, 0⟩).visits.map
          (fun v => v.report.counted) = [some 2]
      ∧ (parse_bgzf (fun _ => zero_stack) 2 ⟨eof_marker, 0⟩).visits.map
          (fun v => v.report.counted) = [some 4])
    ∧ ((read_bgzf_block zero_stack 0 ⟨truncated_member, 0⟩).forget_total
        = .ret 0 ⟨[0x1f, 0x8b, 0x08, 0x04, 0, 0, 0, 0, 0, 0xff, 0x06, 0], 6, 0x42, 0x43, 2, 35,
            10, 0, 0, none⟩ 0 ⟨truncated_member, 28⟩
      ∧ (read_bgzf_block ones_stack 0 ⟨truncated_member, 0⟩).forget_total
        = .ret 1 ⟨[0x1f, 0x8b, 0x08, 0x04, 0, 0, 0, 0, 0, 0xff, 0x06, 0], 6, 0x42, 0x43, 2, 35,
            10, 257, 257, none⟩ 0 ⟨truncated_member, 28⟩) := by
  decide

/-- C13 (amended): for every byte buffer and starting position, two decodes from that
position, whatever the running totals `t1` and `t2` they start from, give outcomes that are
identical except for the running total: the same error or return value, the same report
but for the total printed with it, and the same stream; this holds for two calls of
`read_bgzf_block` whose arrays held the same bytes, and for two walks of `parse_bgzf` whose
arrays held the same bytes call by call.  When the file holds the whole member at the
position, what the arrays held does not matter either.  The total of the second decode
continues from the one it starts with: it is `t2` plus the payload length, wrapped to
32 bits. -/
theorem C13_decode_twice (stk1 stk2 : Stack) (frames : Nat → Stack) (t1 t2 : Int) (fp : FILE) :
    (read_bgzf_block stk1 t1 fp).forget_total = (read_bgzf_block stk1 t2 fp).forget_total
    ∧ (parse_bgzf frames t1 fp).forget_total = (parse_bgzf frames t2 fp).forget_total
    ∧ (fp.holds_member →
        (read_bgzf_block stk1 t1 fp).forget_total = (read_bgzf_block stk2 t2 fp).forget_total)
    ∧ (∀ v r t f, read_bgzf_block stk1 t1 fp = .ret v r t f →
        ∃ r2, read_bgzf_block stk1 t2 fp
            = .ret v r2 (wrap_int (t2 + (r.total_compressed_bytes : Int))) f
          ∧ r2.forget_total = r.forget_total) := by
  refine ⟨read_forget_total stk1 t1 t2 fp, parse_loop_forget_total frames INT_MAX 1 t1 t2 fp,
    ?_, ?_⟩
  · intro h
    rw [read_stack_indep stk1 stk2 t1 fp h]
    exact read_forget_total stk2 t1 t2 fp
  · intro v r t f h
    exact read_ret_shift h t2

/-- C20: for two inputs of the same length, read from the same position, that differ only
in header bytes 4 to 9 (MTIME, XFL, OS) and subfield bytes 0 to 3 (SI1, SI2, SLEN),
`read_bgzf_block` (entered with the same running total and the same array contents) gives the
same acceptance or error, the same return value (terminal flag), the same XLEN, BSIZE and
compressed payload length, the same CRC32 and ISIZE, the same running total and the same
position of the stream afterwards: nothing in the outcome but the printed header bytes, the
two subfield identifiers and SLEN depends on those bytes. -/
theorem C20_unused_bytes (stk : Stack) (total : Int) (fp1 fp2 : FILE)
    (hpos : fp1.pos = fp2.pos) (hlen : fp1.data.length = fp2.data.length)
    (hsame : ∀ k, ¬ (4 ≤ k ∧ k ≤ 9) → ¬ (12 ≤ k ∧ k ≤ 15) → fp1.peek k = fp2.peek k) :
    (read_bgzf_block stk total fp1).essence = (read_bgzf_block stk total fp2).essence
    ∧ (∀ why t f, read_bgzf_block stk total fp1 = .exit why t f →
        ∃ f2, read_bgzf_block stk total fp2 = .exit why t f2 ∧ f2.pos = f.pos)
    ∧ (∀ v r t f, read_bgzf_block stk total fp1 = .ret v r t f →
        ∃ r2 f2, read_bgzf_block stk total fp2 = .ret v r2 t f2
          ∧ r2.total_compressed_bytes = r.total_compressed_bytes
          ∧ r2.extra_length = r.extra_length ∧ r2.block_size = r.block_size
          ∧ r2.crc32 = r.crc32 ∧ r2.input_size = r.input_size ∧ r2.counted = r.counted
          ∧ f2.pos = f.pos) := by
  obtain ⟨d1, p1⟩ := fp1
  obtain ⟨d2, p2⟩ := fp2
  simp only [] at hpos hlen
  subst hpos
  have he := essence_of_same_used_bytes stk total d1 d2 p1 hlen hsame
  refine ⟨he, ?_, ?_⟩
  · intro why t f h
    rw [h] at he
    cases h2 : read_bgzf_block stk total ⟨d2, p1⟩ with
    | exit why2 t2 f2 =>
      rw [h2] at he
      simp only [Outcome.essence, Prod.mk.injEq, Option.some.injEq, true_and] at he
      exact ⟨f2, by rw [he.1, he.2.1], he.2.2.symm⟩
    | ret v2 r2 t2 f2 =>
      rw [h2] at he
      simp only [Outcome.essence, Prod.mk.injEq] at he
      exact Option.noConfusion he.1
  · intro v r t f h
    rw [h] at he
    cases h2 : read_bgzf_block stk total ⟨d2, p1⟩ with
    | exit why2 t2 f2 =>
      rw [h2] at he
      simp only [Outcome.essence, Prod.mk.injEq] at he
      exact Option.noConfusion he.1
    | ret v2 r2 t2 f2 =>
      rw [h2] at he
      simp only [Outcome.essence, Prod.mk.injEq, Option.some.injEq, true_and,
        Report.mk.injEq] at he
      obtain ⟨⟨hv, hx, hb, hn, hc, hi, hct⟩, ht, hf⟩ := he
      exact ⟨r2, f2, by rw [hv, ht], hn.symm, hx.symm, hb.symm, hc.symm, hi.symm, hct.symm,
        hf.symm⟩

/-- C20 at the end-of-file marker and `relabelled_marker`, which has other values for MTIME,
XFL, OS, SI1, SI2 and SLEN (the identifiers are `X`, `Y` and SLEN is 0x0707): the call has the
same outcome on both, a terminal report with payload length 2 and the stream at offset 28. -/
theorem C20_unused_bytes_witness :
    (read_bgzf_block zero_stack 0 ⟨eof_marker, 0⟩).essence
        = (read_bgzf_block zero_stack 0 ⟨relabelled_marker, 0⟩).essence
    ∧ read_bgzf_block zero_stack 0 ⟨relabelled_marker, 0⟩
        = .ret 0 ⟨[0x1f, 0x8b, 0x08, 0x04, 1, 2, 3, 4, 5, 6, 0x06, 0], 6, 0x58, 0x59, 1799, 27, 2,
            0, 0, some 2⟩ 2 ⟨relabelled_marker, 28⟩ :=
  ⟨(C20_unused_bytes zero_stack 0 ⟨eof_marker, 0⟩ ⟨relabelled_marker, 0⟩ rfl (by decide)
      relabelled_marker_same).1, by decide⟩

end Bgzf
